import Mathlib

/-!
# prometheus-ali-sd: the `ecs` command

A shallow embedding of `cmd/ecs.go` (the instance filter, the duplicate check, the label
grouping and the two paging loops) together with the properties of it that the
specification states.

* Go `map[string]string` values are finite maps (`Finmap`); `m[k]` is `GoMap.index`
  (the zero value `""` for an absent key) and `reflect.DeepEqual` on two non-nil maps is
  equality of finite maps.
* Go `int` is a 64-bit two's-complement integer: arithmetic results are wrapped by `wrap64`.
* A Go run-time panic or an `os.Exit(1)` is a `Fault`.
* The `regexp` package and the Alibaba Cloud SDK clients are parameters.
* The `for remaining > 0` loops take a fuel argument; `none` means the fuel ran out.
-/

namespace AliSd

/-! ## Data model -/

/-- Go `map[string]string`. -/
abbrev GoMap := Finmap (fun _ : String => String)

/-- Go map indexing `m[k]`: the value stored under `k`, or the zero value `""`. -/
def GoMap.index (m : GoMap) (k : String) : String := (m.lookup k).getD ""

/-- The ways in which `Run` stops before writing its output. -/
inductive Fault where
  /-- nil pointer dereference: `r.MatchString` on the nil `*Regexp` of a failed `Compile` -/
  | nilDereference
  /-- index out of range: `tagList[1]` for a `--tag` value without `=` -/
  | indexOutOfRange
  /-- an error returned by the cloud API (`os.Exit(1)` in `Run`) -/
  | sourceError (msg : String)
deriving DecidableEq, Repr

deriving instance DecidableEq for Except

/-- The `ecs.Tag` fields that `Run` reads. -/
structure Tag where
  TagKey : String
  TagValue : String
deriving DecidableEq, Repr

/-- The `ecs.Instance` fields that `Run` reads (`VpcId` is `VpcAttributes.VpcId`). -/
structure Instance where
  InstanceId : String
  InstanceName : String
  Tags : List Tag
  VpcId : String
deriving DecidableEq, Repr

/-- The `vpc.Vpc` fields that `getVPCInfo` reads. -/
structure Vpc where
  VpcId : String
  VpcName : String
deriving DecidableEq, Repr

/-- One target group of the output document (`type ecsInfo struct`). -/
structure ecsInfo where
  Targets : List String
  Labels : GoMap
deriving DecidableEq

/-- The command-line flags (`type ecsCmdFlags struct`). -/
structure ecsCmdFlags where
  output : String
  labelPrefix : String
  instanceName : String
  pageSize : Int
  tag : List String
  regName : List String
  noTagKey : List String
  noTagValue : List String

/-- The constant `nodeExporterPort`. -/
def nodeExporterPort : String := "9100"

/-- The result of `regexp.Compile`: a matcher (`(*Regexp).MatchString`), or `none` when the
pattern is rejected (the returned `*Regexp` is then nil). -/
abbrev Regexp := String → Bool

/-- The local variables of `Run` that live across instances. -/
structure RunState where
  ecsInfoList : List ecsInfo
  instanceList : GoMap
  allInstances : List Instance
deriving DecidableEq

/-- The state `Run` starts from (`ecs.go` lines 83-85, 108). -/
def RunState.init : RunState := ⟨[], ∅, []⟩

/-! ## Machine integers -/

/-- The value of a Go `int` (64 bit, two's complement) after an arithmetic operation whose
mathematical result is `x`. -/
def wrap64 (x : Int) : Int := (x + 2 ^ 63) % 2 ^ 64 - 2 ^ 63

/-! ## The scope filter (`ecs.go` lines 138-181) -/

/-- The package-level `regexp.MatchString(pattern, s)`: a pattern that does not compile
yields `false` (with an error that `Run` drops). -/
def MatchString (compile : String → Option Regexp) (pattern s : String) : Bool :=
  match compile pattern with
  | some r => r s
  | none => false

/-- The name loop, lines 140-147; the second argument is the current `nameMatch`. -/
def nameLoop (compile : String → Option Regexp) (name : String) : List String → Bool → Bool
  | [], nameMatch => nameMatch
  | regRule :: rest, nameMatch =>
    if MatchString compile regRule name then true else nameLoop compile name rest nameMatch

/-- Lines 139-147: `nameMatch`. -/
def nameGate (compile : String → Option Regexp) (flags : ecsCmdFlags) (inst : Instance) : Bool :=
  nameLoop compile inst.InstanceName flags.regName (decide (flags.regName.length = 0))

/-- The inner loop of lines 154-160 (and 170-176): does `r` match a projection of one of the
tags? Calling `MatchString` on a nil `r` panics. -/
def tagLoop (r : Option Regexp) (proj : Tag → String) : List Tag → Except Fault Bool
  | [] => .ok false
  | tag :: rest =>
    match r with
    | none => .error Fault.nilDereference
    | some m => if m (proj tag) then .ok true else tagLoop r proj rest

/-- The outer loop of lines 152-164 (and 168-180); the result is the final value of
`noTagKeyMatch` (`noTagValueMatch`). -/
def excludeLoop (compile : String → Option Regexp) (proj : Tag → String) (tags : List Tag) :
    List String → Except Fault Bool
  | [] => .ok true
  | regRule :: rest =>
    match tagLoop (compile regRule) proj tags with
    | .error e => .error e
    | .ok true => .ok false
    | .ok false => excludeLoop compile proj tags rest

/-- Lines 139-181: does the instance reach the duplicate check of line 183? -/
def scopeFilter (compile : String → Option Regexp) (flags : ecsCmdFlags) (inst : Instance) :
    Except Fault Bool :=
  if nameGate compile flags inst then
    match excludeLoop compile Tag.TagKey inst.Tags flags.noTagKey with
    | .error e => .error e
    | .ok false => .ok false
    | .ok true => excludeLoop compile Tag.TagValue inst.Tags flags.noTagValue
  else .ok false

/-! ## Labels and grouping (`ecs.go` lines 182-211) -/

/-- The target address: lines 182 and 187, `Sprintf("%s.%s", name, "ali-netbase.com")`
followed by `Sprintf("%s:%s", instanceName, nodeExporterPort)`. -/
def targetOf (name : String) : String :=
  (name ++ "." ++ "ali-netbase.com") ++ ":" ++ nodeExporterPort

/-- The label key of lines 190-194 and 196-200: `Sprintf("%s_%s", labelPrefix, key)` when
the prefix is not empty, the key itself otherwise. -/
def labelKey (labelPrefix key : String) : String :=
  if labelPrefix ≠ "" then labelPrefix ++ "_" ++ key else key

/-- The tag loop of lines 189-195, writing into `ecsInfo.Labels`. -/
def tagLabels (labelPrefix : String) : List Tag → GoMap → GoMap
  | [], labels => labels
  | tag :: rest, labels =>
    tagLabels labelPrefix rest (labels.insert (labelKey labelPrefix tag.TagKey) tag.TagValue)

/-- Lines 188-200: the label map of an instance. -/
def buildLabels (flags : ecsCmdFlags) (vpcMap : GoMap) (inst : Instance) : GoMap :=
  (tagLabels flags.labelPrefix inst.Tags ((∅ : GoMap).insert "exporter" "node_exporter")).insert
    (labelKey flags.labelPrefix "vpc") (vpcMap.index inst.VpcId)

/-- The loop of lines 201-207: append `target` to the first group whose labels are deeply
equal to `labels`; `none` when no group is (`newLabel` stays true). -/
def appendTarget (target : String) (labels : GoMap) : List ecsInfo → Option (List ecsInfo)
  | [] => none
  | ecs :: rest =>
    if ecs.Labels = labels then some ({ ecs with Targets := ecs.Targets ++ [target] } :: rest)
    else (appendTarget target labels rest).map (fun l => ecs :: l)

/-- Lines 187-210: grouping of an instance that passed the duplicate check. -/
def groupInstance (flags : ecsCmdFlags) (vpcMap : GoMap) (inst : Instance)
    (ecsInfoList : List ecsInfo) : List ecsInfo :=
  let target := targetOf inst.InstanceName
  let labels := buildLabels flags vpcMap inst
  match appendTarget target labels ecsInfoList with
  | some l => l
  | none => ecsInfoList ++ [⟨[target], labels⟩]

/-- The body of the instance loop, lines 136-214. -/
def instanceStep (compile : String → Option Regexp) (flags : ecsCmdFlags) (vpcMap : GoMap)
    (st : RunState) (inst : Instance) : Except Fault RunState :=
  let all := st.allInstances ++ [inst]
  match scopeFilter compile flags inst with
  | .error e => .error e
  | .ok false => .ok { st with allInstances := all }
  | .ok true =>
    if st.instanceList.index inst.InstanceName ≠ "" then
      .ok { st with allInstances := all }
    else
      .ok { ecsInfoList := groupInstance flags vpcMap inst st.ecsInfoList
            instanceList := st.instanceList.insert inst.InstanceName inst.InstanceId
            allInstances := all }

/-- The instance loop of line 135 over the instances of one response (and, by
`processInstances_append`, over the whole inventory in fetch order). -/
def processInstances (compile : String → Option Regexp) (flags : ecsCmdFlags) (vpcMap : GoMap) :
    RunState → List Instance → Except Fault RunState
  | st, [] => .ok st
  | st, inst :: rest =>
    match instanceStep compile flags vpcMap st inst with
    | .error e => .error e
    | .ok st' => processInstances compile flags vpcMap st' rest

/-! ## Paging (`ecs.go` lines 104-106, 118-218 and 235-260) -/

/-- The loop `for remaining > 0 { fetch; process; remaining = TotalCount - pageNumber*pageSize;
pageNumber++ }` that `Run` and `getVPCInfo` both contain. `fetch` is the API call for a page
number, `body` processes the items of a response. The last argument and the first component
of the result record the page numbers requested so far, in order. -/
def pageLoop {ρ σ : Type} (fetch : Int → Except Fault (List ρ × Int))
    (body : σ → List ρ → Except Fault σ) (pageSize : Int) :
    Nat → Int → Int → σ → List Int → Option (List Int × Except Fault σ)
  | 0, remaining, _, st, log => if remaining > 0 then none else some (log, .ok st)
  | fuel + 1, remaining, pageNumber, st, log =>
    if remaining > 0 then
      match fetch pageNumber with
      | .error e => some (log ++ [pageNumber], .error e)
      | .ok (items, totalCount) =>
        match body st items with
        | .error e => some (log ++ [pageNumber], .error e)
        | .ok st' =>
          pageLoop fetch body pageSize fuel
            (wrap64 (totalCount - wrap64 (pageNumber * pageSize))) (wrap64 (pageNumber + 1))
            st' (log ++ [pageNumber])
    else some (log, .ok st)

/-- The request of `vpc.CreateDescribeVpcsRequest` as filled in lines 243-246. -/
structure DescribeVpcsRequest where
  PageSize : Int
  PageNumber : Int
deriving DecidableEq

/-- The request of `ecs.CreateDescribeInstancesRequest` as filled in lines 120-127. -/
structure DescribeInstancesRequest where
  Tag : List (String × String)
  InstanceName : String
  PageSize : Int
  PageNumber : Int
deriving DecidableEq

/-- The local variables of `getVPCInfo`. -/
structure VpcState where
  vpcMap : GoMap
  allVpcs : List Vpc
deriving DecidableEq

/-- The loop of lines 254-257. -/
def recordVpcs : VpcState → List Vpc → VpcState
  | st, [] => st
  | st, v :: rest => recordVpcs ⟨st.vpcMap.insert v.VpcId v.VpcName, st.allVpcs ++ [v]⟩ rest

/-- The function `getVPCInfo` (lines 232-263), with the page numbers it requested. -/
def getVPCInfo (vpcClient : DescribeVpcsRequest → Except Fault (List Vpc × Int))
    (flags : ecsCmdFlags) (fuel : Nat) : Option (List Int × Except Fault VpcState) :=
  pageLoop (fun pageNumber => vpcClient ⟨flags.pageSize, pageNumber⟩)
    (fun st vpcs => .ok (recordVpcs st vpcs)) flags.pageSize fuel 1 1 ⟨∅, []⟩ []

/-- Go `strings.Split(s, "=")` on the characters of `s`. -/
def splitEq : List Char → List (List Char)
  | [] => [[]]
  | c :: cs =>
    if c = '=' then [] :: splitEq cs
    else
      match splitEq cs with
      | [] => [[c]]
      | part :: parts => (c :: part) :: parts

/-- Lines 109-117: the tag filter of the request; `tagList[1]` panics without a `=`. -/
def requestTags : List String → Except Fault (List (String × String))
  | [] => .ok []
  | tag :: rest =>
    match splitEq tag.data with
    | key :: value :: _ =>
      match requestTags rest with
      | .error e => .error e
      | .ok tags => .ok ((String.mk key, String.mk value) :: tags)
    | _ => .error Fault.indexOutOfRange

/-- The paging loop of `Run`, lines 104-106 and 118-218, with the page numbers it requested. -/
def RunLoop (ecsClient : DescribeInstancesRequest → Except Fault (List Instance × Int))
    (compile : String → Option Regexp) (flags : ecsCmdFlags) (vpcMap : GoMap)
    (tags : List (String × String)) (fuel : Nat) : Option (List Int × Except Fault RunState) :=
  pageLoop (fun pageNumber => ecsClient ⟨tags, flags.instanceName, flags.pageSize, pageNumber⟩)
    (processInstances compile flags vpcMap) flags.pageSize fuel 1 1 RunState.init []

/-- The command `ecs` (lines 82-229) up to the encoding of `ecsInfoList`: the network
directory, the tag filter, the instance loop. -/
def Run (vpcClient : DescribeVpcsRequest → Except Fault (List Vpc × Int))
    (ecsClient : DescribeInstancesRequest → Except Fault (List Instance × Int))
    (compile : String → Option Regexp) (flags : ecsCmdFlags) (fuel : Nat) :
    Option (Except Fault (List ecsInfo)) :=
  match getVPCInfo vpcClient flags fuel with
  | none => none
  | some (_, .error e) => some (.error e)
  | some (_, .ok vpcs) =>
    match requestTags flags.tag with
    | .error e => some (.error e)
    | .ok tags =>
      match RunLoop ecsClient compile flags vpcs.vpcMap tags fuel with
      | none => none
      | some (_, .error e) => some (.error e)
      | some (_, .ok st) => some (.ok st.ecsInfoList)

/-! ## Sample inputs -/

/-- A small regular-expression engine for concrete examples: a pattern made of letters and
digits only is a literal and matches the strings that contain it, as in Go; any other pattern
is rejected. Go rejects `(` as well (missing closing parenthesis). -/
def literalCompile (pattern : String) : Option Regexp :=
  if pattern.data.all Char.isAlphanum then
    some (fun s => decide (pattern.data <:+: s.data))
  else none

/-- The sample command line `--regname web --notagk autoscaling --notagv autoScale`. -/
def sampleFlags : ecsCmdFlags :=
  ⟨"/tmp/test.json", "", "", 10, [], ["web"], ["autoscaling"], ["autoScale"]⟩

/-- The instance `web01` with the tag `env=prod` in the network `vpc-1`. -/
def web01 : Instance := ⟨"i-web01", "web01", [⟨"env", "prod"⟩], "vpc-1"⟩

/-- The network directory in which `vpc-1` is named `core`. -/
def coreVpcMap : GoMap := (∅ : GoMap).insert "vpc-1" "core"

/-- The instance `web02`, tagged and placed like `web01`. -/
def web02 : Instance := ⟨"i-web02", "web02", [⟨"env", "prod"⟩], "vpc-1"⟩

/-- The label map `{exporter: node_exporter, env: prod, vpc: core}`. -/
def web01Labels : GoMap :=
  (((∅ : GoMap).insert "exporter" "node_exporter").insert "env" "prod").insert "vpc" "core"

/-- The state of `Run` after `web01` alone. -/
def web01State : RunState :=
  ⟨[⟨["web01.ali-netbase.com:9100"], web01Labels⟩], (∅ : GoMap).insert "web01" "i-web01", [web01]⟩

/-- The state of `Run` after `web01` and `web02`. -/
def web02State : RunState :=
  ⟨[⟨["web01.ali-netbase.com:9100", "web02.ali-netbase.com:9100"], web01Labels⟩],
   ((∅ : GoMap).insert "web01" "i-web01").insert "web02" "i-web02", [web01, web02]⟩

/-- A command line without any rule: every instance passes the filter. -/
def plainFlags : ecsCmdFlags := ⟨"/tmp/test.json", "", "", 10, [], [], [], []⟩

/-- An instance named `web01` like `web01`, discovered later under another identifier. -/
def web01Again : Instance := ⟨"i-later", "web01", [⟨"env", "test"⟩], "vpc-1"⟩

/-- An instance named `db01` whose identifier is the empty string. -/
def db01 : Instance := ⟨"", "db01", [], ""⟩

/-- A later instance with the same name `db01`. -/
def db01Again : Instance := ⟨"i-db01", "db01", [], ""⟩

/-- The label map `{exporter: node_exporter, vpc: ""}`. -/
def db01Labels : GoMap := ((∅ : GoMap).insert "exporter" "node_exporter").insert "vpc" ""

/-- An instance tagged `env=test` in `vpc-1`. -/
def webtest : Instance := ⟨"i-webtest", "webtest", [⟨"env", "test"⟩], "vpc-1"⟩

/-- The label map `{exporter: node_exporter, env: test, vpc: core}`. -/
def webtestLabels : GoMap :=
  (((∅ : GoMap).insert "exporter" "node_exporter").insert "env" "test").insert "vpc" "core"

/-- The state of `Run` after `web01` and `webtest`. -/
def webtestState : RunState :=
  ⟨[⟨["web01.ali-netbase.com:9100"], web01Labels⟩,
    ⟨["webtest.ali-netbase.com:9100"], webtestLabels⟩],
   ((∅ : GoMap).insert "web01" "i-web01").insert "webtest" "i-webtest", [web01, webtest]⟩

/-- The state of `Run` after `web01`, `webtest` and `web02`. -/
def threeState : RunState :=
  ⟨[⟨["web01.ali-netbase.com:9100", "web02.ali-netbase.com:9100"], web01Labels⟩,
    ⟨["webtest.ali-netbase.com:9100"], webtestLabels⟩],
   (((∅ : GoMap).insert "web01" "i-web01").insert "webtest" "i-webtest").insert
     "web02" "i-web02",
   [web01, webtest, web02]⟩

/-- An instance that carries a tag named `exporter` and a tag named `vpc`. -/
def tagged01 : Instance :=
  ⟨"i-tagged01", "tagged01", [⟨"exporter", "custom"⟩, ⟨"vpc", "mine"⟩], "vpc-1"⟩

/-- The command line `--labelprefix ecs`, without any rule. -/
def ecsPrefixFlags : ecsCmdFlags := ⟨"/tmp/test.json", "ecs", "", 10, [], [], [], []⟩

/-- An instance in a network that the directory does not know. -/
def lost01 : Instance := ⟨"i-lost01", "lost01", [], "vpc-9"⟩

/-- The instance number `k` of the sample inventory, tagged `env=prod`. -/
def numbered (k : Nat) : Instance :=
  ⟨"i-" ++ String.mk (Nat.toDigits 10 k), "web" ++ String.mk (Nat.toDigits 10 k),
   [⟨"env", "prod"⟩], "vpc-1"⟩

/-- An inventory source with 25 instances: every response reports the total 25 and holds the
instances of the page asked for. -/
def sampleEcsClient (req : DescribeInstancesRequest) : Except Fault (List Instance × Int) :=
  .ok ((((List.range 25).map numbered).drop
    ((req.PageNumber.toNat - 1) * req.PageSize.toNat)).take req.PageSize.toNat, 25)

/-- A network source with the single network `vpc-1`, named `core`. -/
def sampleVpcClient (req : DescribeVpcsRequest) : Except Fault (List Vpc × Int) :=
  .ok (if req.PageNumber = 1 then [⟨"vpc-1", "core"⟩] else [], 1)

/-- The command line `--notagk "("`: the exclude pattern does not compile. -/
def badKeyFlags : ecsCmdFlags := ⟨"/tmp/test.json", "", "", 10, [], [], ["("], []⟩

/-- The command line `--notagv "("`: the exclude pattern does not compile. -/
def badValueFlags : ecsCmdFlags := ⟨"/tmp/test.json", "", "", 10, [], [], [], ["("]⟩

/-- A later instance with the same name `db01` and the tag `env=test`. -/
def db01Test : Instance := ⟨"i-db01", "db01", [⟨"env", "test"⟩], ""⟩

/-- The label map `{exporter: node_exporter, env: test, vpc: ""}`. -/
def db01TestLabels : GoMap :=
  (((∅ : GoMap).insert "exporter" "node_exporter").insert "env" "test").insert "vpc" ""

/-! ## Vocabulary of the properties -/

/-- All target addresses of a list of groups, group by group. -/
def allTargets (l : List ecsInfo) : List String := l.flatMap ecsInfo.Targets

/-- The list `new` starts with the groups of `old`, in the same number and order, each with
the same labels and with a target list that the old one is a prefix of; further groups may
follow. -/
def GroupsExtend (old new : List ecsInfo) : Prop :=
  ∃ kept added, new = kept ++ added ∧
    List.Forall₂ (fun o n => n.Labels = o.Labels ∧ o.Targets <+: n.Targets) old kept

/-- The list `new` is `old` with `target` appended at the end of the targets of the first
group whose labels are `labels`. -/
def AppendsToFirstMatch (target : String) (labels : GoMap) (old new : List ecsInfo) : Prop :=
  ∃ pre g post, old = pre ++ g :: post ∧ (∀ x ∈ pre, x.Labels ≠ labels) ∧ g.Labels = labels ∧
    new = pre ++ ⟨g.Targets ++ [target], g.Labels⟩ :: post

/-- No group of `old` has the labels `labels`, and `new` is `old` followed by one new group
with these labels and the single target `target`. -/
def AddsGroup (target : String) (labels : GoMap) (old new : List ecsInfo) : Prop :=
  (∀ g ∈ old, g.Labels ≠ labels) ∧ new = old ++ [⟨[target], labels⟩]

/-- The names of the instances of `insts` that pass the scope filter, in order. -/
def admittedNames (compile : String → Option Regexp) (flags : ecsCmdFlags)
    (insts : List Instance) : List String :=
  (insts.filter (fun i => decide (scopeFilter compile flags i = .ok true))).map
    Instance.InstanceName

/-- The invariant that links the registry and the targets to the instances processed so far
(`allInstances`), when no identifier is the empty string: the registry holds exactly the names
that passed the filter, and the targets are exactly their addresses, each once. -/
def NamesInv (compile : String → Option Regexp) (flags : ecsCmdFlags) (st : RunState) : Prop :=
  (∀ n, st.instanceList.index n ≠ "" ↔ n ∈ admittedNames compile flags st.allInstances) ∧
  (∀ t, t ∈ allTargets st.ecsInfoList ↔
    ∃ n ∈ admittedNames compile flags st.allInstances, t = targetOf n) ∧
  (allTargets st.ecsInfoList).Nodup

/-- The position of the group that the loop of lines 201-210 puts an instance with the label
map `labels` into: the first group with these labels, or the end of the list, where the new
group is appended. -/
def groupIndex (labels : GoMap) (l : List ecsInfo) : Nat :=
  l.findIdx (fun g => decide (g.Labels = labels))

/-- The number of fetches `max(1, ceil(T / pageSize))`. -/
def fetchCount (T pageSize : Int) : Nat := (max 1 ((T + pageSize - 1) / pageSize)).toNat

/-- The page numbers `1, 2, ..., n`. -/
def pageNumbers (n : Nat) : List Int := (List.range' 1 n).map (fun i : Nat => (i : Int))

/-- The items of the response to the request for page `p` (none when the request fails). -/
def pageItems {ρ : Type} (fetch : Int → Except Fault (List ρ × Int)) (p : Int) : List ρ :=
  match fetch p with
  | .ok (items, _) => items
  | .error _ => []

/-- The loop body applied to the pages `pages`, one after the other. -/
def runPages {ρ σ : Type} (fetch : Int → Except Fault (List ρ × Int))
    (body : σ → List ρ → Except Fault σ) : List Int → σ → Except Fault σ
  | [], st => .ok st
  | p :: rest, st =>
    match body st (pageItems fetch p) with
    | .error e => .error e
    | .ok st' => runPages fetch body rest st'

/-! # Properties -/

/-! ## The scope filter -/

theorem nameLoop_eq_true (compile : String → Option Regexp) (name : String)
    (rules : List String) (b : Bool) :
    nameLoop compile name rules b = true ↔
      (b = true ∨ ∃ p ∈ rules, MatchString compile p name = true) := by
  induction rules with
  | nil => simp [nameLoop]
  | cons regRule rest ih =>
    unfold nameLoop
    by_cases h : MatchString compile regRule name = true
    · simp [h]
    · simp only [h, Bool.false_eq_true, if_false, ih, List.mem_cons, exists_eq_or_imp, false_or]

theorem nameGate_eq_true (compile : String → Option Regexp) (flags : ecsCmdFlags)
    (inst : Instance) :
    nameGate compile flags inst = true ↔
      (flags.regName = [] ∨
        ∃ p ∈ flags.regName, MatchString compile p inst.InstanceName = true) := by
  unfold nameGate
  rw [nameLoop_eq_true]
  simp [List.length_eq_zero]

theorem tagLoop_some (m : Regexp) (proj : Tag → String) (tags : List Tag) :
    tagLoop (some m) proj tags = .ok (tags.any (fun tag => m (proj tag))) := by
  induction tags with
  | nil => rfl
  | cons tag rest ih =>
    unfold tagLoop
    by_cases h : m (proj tag) = true
    · simp [h]
    · simp [h, ih]

theorem tagLoop_nil (r : Option Regexp) (proj : Tag → String) :
    tagLoop r proj [] = .ok false := by
  cases r <;> rfl

theorem MatchString_of_compile {compile : String → Option Regexp} {p : String} {m : Regexp}
    (h : compile p = some m) (s : String) : MatchString compile p s = m s := by
  simp [MatchString, h]

/-- When every pattern of the list compiles, the exclude loop returns normally, and it
returns `true` exactly when no pattern matches the projection of any tag. -/
theorem excludeLoop_of_compile (compile : String → Option Regexp) (proj : Tag → String)
    (tags : List Tag) (rules : List String)
    (hc : ∀ p ∈ rules, (compile p).isSome = true) :
    ∃ b, excludeLoop compile proj tags rules = .ok b ∧
      (b = true ↔ ¬ ∃ tag ∈ tags, ∃ p ∈ rules, MatchString compile p (proj tag) = true) := by
  induction rules with
  | nil => exact ⟨true, rfl, by simp⟩
  | cons regRule rest ih =>
    obtain ⟨m, hm⟩ := Option.isSome_iff_exists.mp (hc regRule (List.mem_cons_self _ _))
    obtain ⟨b, hb, hiff⟩ := ih (fun p hp => hc p (List.mem_cons_of_mem _ hp))
    unfold excludeLoop
    rw [hm, tagLoop_some]
    by_cases hany : tags.any (fun tag => m (proj tag)) = true
    · refine ⟨false, by simp [hany], ?_⟩
      obtain ⟨tag, htag, hmt⟩ := List.any_eq_true.mp hany
      simp only [Bool.false_eq_true, false_iff, not_not]
      exact ⟨tag, htag, regRule, List.mem_cons_self _ _, by rw [MatchString_of_compile hm]; exact hmt⟩
    · have hany' : tags.any (fun tag => m (proj tag)) = false := by simpa using hany
      refine ⟨b, by simp [hany', hb], ?_⟩
      rw [hiff]
      have hno : ∀ tag ∈ tags, MatchString compile regRule (proj tag) = false := by
        intro tag htag
        rw [MatchString_of_compile hm]
        have := List.any_eq_false.mp hany' tag htag
        simpa using this
      constructor
      · rintro h ⟨tag, htag, p, hp, hmatch⟩
        rcases List.mem_cons.mp hp with rfl | hp
        · rw [hno tag htag] at hmatch; exact Bool.false_ne_true hmatch
        · exact h ⟨tag, htag, p, hp, hmatch⟩
      · rintro h ⟨tag, htag, p, hp, hmatch⟩
        exact h ⟨tag, htag, p, List.mem_cons_of_mem _ hp, hmatch⟩

/-- C1. For every instance and every rule set whose patterns all compile, the scope filter
of `Run` returns normally, and the instance passes it (reaches the duplicate check) exactly
when (`regName` is empty or some `regName` pattern matches the instance name) and no tag key
matches a `noTagKey` pattern and no tag value matches a `noTagValue` pattern. In particular an
empty `regName` passes the name gate, and an instance one of whose tag keys matches a
`noTagKey` pattern is rejected whatever the name gate says. -/
theorem scopeFilter_admission (compile : String → Option Regexp) (flags : ecsCmdFlags)
    (inst : Instance)
    (hc : ∀ p ∈ flags.regName ++ flags.noTagKey ++ flags.noTagValue,
      (compile p).isSome = true) :
    (∃ b, scopeFilter compile flags inst = .ok b ∧
      (b = true ↔
        (flags.regName = [] ∨
          ∃ p ∈ flags.regName, MatchString compile p inst.InstanceName = true) ∧
        (¬ ∃ tag ∈ inst.Tags, ∃ p ∈ flags.noTagKey,
          MatchString compile p tag.TagKey = true) ∧
        (¬ ∃ tag ∈ inst.Tags, ∃ p ∈ flags.noTagValue,
          MatchString compile p tag.TagValue = true))) ∧
    (flags.regName = [] → nameGate compile flags inst = true) ∧
    ((∃ tag ∈ inst.Tags, ∃ p ∈ flags.noTagKey, MatchString compile p tag.TagKey = true) →
      scopeFilter compile flags inst = .ok false) := by
  have hk : ∀ p ∈ flags.noTagKey, (compile p).isSome = true :=
    fun p hp => hc p (by simp [hp])
  have hv : ∀ p ∈ flags.noTagValue, (compile p).isSome = true :=
    fun p hp => hc p (by simp [hp])
  obtain ⟨bk, hbk, hkiff⟩ := excludeLoop_of_compile compile Tag.TagKey inst.Tags _ hk
  obtain ⟨bv, hbv, hviff⟩ := excludeLoop_of_compile compile Tag.TagValue inst.Tags _ hv
  have hgate := nameGate_eq_true compile flags inst
  refine ⟨?_, fun h => hgate.mpr (Or.inl h), ?_⟩
  · unfold scopeFilter
    by_cases hn : nameGate compile flags inst = true
    · rw [if_pos hn, hbk]
      cases bk with
      | false =>
        refine ⟨false, rfl, ?_⟩
        have : ¬ ¬ ∃ tag ∈ inst.Tags, ∃ p ∈ flags.noTagKey,
            MatchString compile p tag.TagKey = true := fun h => by
          have := hkiff.mpr h
          exact Bool.false_ne_true this
        constructor
        · intro h; exact absurd h Bool.false_ne_true
        · rintro ⟨_, h, _⟩; exact absurd h this
      | true =>
        refine ⟨bv, hbv, ?_⟩
        rw [hviff]
        constructor
        · intro h; exact ⟨hgate.mp hn, hkiff.mp rfl, h⟩
        · rintro ⟨_, _, h⟩; exact h
    · rw [if_neg hn]
      refine ⟨false, rfl, ?_⟩
      constructor
      · intro h; exact absurd h Bool.false_ne_true
      · rintro ⟨h, _, _⟩; exact absurd (hgate.mpr h) hn
  · intro hex
    unfold scopeFilter
    have hbkf : bk = false := by
      cases bk with
      | false => rfl
      | true => exact absurd hex (hkiff.mp rfl)
    rw [hbkf] at hbk
    by_cases hn : nameGate compile flags inst = true
    · rw [if_pos hn, hbk]
    · rw [if_neg hn]

/-- The admission rule on `web01`: without name rule the name gate passes, and with the exclude
rule `env` the instance is rejected. -/
theorem scopeFilter_admission_witness :
    (∀ p ∈ sampleFlags.regName ++ sampleFlags.noTagKey ++ sampleFlags.noTagValue,
      (literalCompile p).isSome = true) ∧
    nameGate literalCompile { sampleFlags with regName := [] } web01 = true ∧
    scopeFilter literalCompile { sampleFlags with noTagKey := ["env"] } web01 = .ok false :=
  ⟨by decide,
   (scopeFilter_admission literalCompile { sampleFlags with regName := [] } web01
      (by decide)).2.1 rfl,
   (scopeFilter_admission literalCompile { sampleFlags with noTagKey := ["env"] } web01
      (by decide)).2.2 ⟨⟨"env", "prod"⟩, by decide, "env", by decide, by decide⟩⟩

/-! ## One instance: the frame of the grouping step -/

theorem appendTarget_none_iff (target : String) (labels : GoMap) (l : List ecsInfo) :
    appendTarget target labels l = none ↔ ∀ g ∈ l, g.Labels ≠ labels := by
  induction l with
  | nil => simp [appendTarget]
  | cons ecs rest ih =>
    unfold appendTarget
    by_cases h : ecs.Labels = labels
    · simp [h]
    · simp [h, ih]

theorem appendTarget_some {target : String} {labels : GoMap} {l l' : List ecsInfo}
    (h : appendTarget target labels l = some l') :
    AppendsToFirstMatch target labels l l' := by
  induction l generalizing l' with
  | nil => simp [appendTarget] at h
  | cons ecs rest ih =>
    unfold appendTarget at h
    by_cases hl : ecs.Labels = labels
    · rw [if_pos hl] at h
      refine ⟨[], ecs, rest, rfl, by simp, hl, ?_⟩
      simpa using (Option.some.inj h).symm
    · rw [if_neg hl] at h
      obtain ⟨r, hr, rfl⟩ := Option.map_eq_some'.mp h
      obtain ⟨pre, g, post, rfl, hpre, hg, rfl⟩ := ih hr
      refine ⟨ecs :: pre, g, post, rfl, ?_, hg, rfl⟩
      intro x hx
      rcases List.mem_cons.mp hx with rfl | hx
      · exact hl
      · exact hpre x hx

theorem groupInstance_cases (flags : ecsCmdFlags) (vpcMap : GoMap) (inst : Instance)
    (l : List ecsInfo) :
    AppendsToFirstMatch (targetOf inst.InstanceName) (buildLabels flags vpcMap inst) l
        (groupInstance flags vpcMap inst l) ∨
      AddsGroup (targetOf inst.InstanceName) (buildLabels flags vpcMap inst) l
        (groupInstance flags vpcMap inst l) := by
  cases h : appendTarget (targetOf inst.InstanceName) (buildLabels flags vpcMap inst) l with
  | none =>
    have hg : groupInstance flags vpcMap inst l =
        l ++ [⟨[targetOf inst.InstanceName], buildLabels flags vpcMap inst⟩] := by
      simp only [groupInstance, h]
    rw [hg]
    exact Or.inr ⟨(appendTarget_none_iff _ _ _).mp h, rfl⟩
  | some l' =>
    have hg : groupInstance flags vpcMap inst l = l' := by
      simp only [groupInstance, h]
    rw [hg]
    exact Or.inl (appendTarget_some h)

theorem appendsToFirstMatch_ne {target : String} {labels : GoMap} {old new : List ecsInfo}
    (h : AppendsToFirstMatch target labels old new) : new ≠ old := by
  obtain ⟨pre, g, post, rfl, -, -, rfl⟩ := h
  intro heq
  have h1 := List.append_cancel_left heq
  have h2 := congrArg ecsInfo.Targets (List.cons.inj h1).1
  have h3 := congrArg List.length h2
  simp at h3

theorem appendsToFirstMatch_not_addsGroup {target : String} {labels : GoMap}
    {old new : List ecsInfo} (h : AppendsToFirstMatch target labels old new) :
    ¬ AddsGroup target labels old new := by
  obtain ⟨pre, g, post, rfl, -, hg, rfl⟩ := h
  rintro ⟨hno, -⟩
  exact hno g (by simp) hg

theorem addsGroup_ne {target : String} {labels : GoMap} {old new : List ecsInfo}
    (h : AddsGroup target labels old new) : new ≠ old := by
  obtain ⟨-, rfl⟩ := h
  intro heq
  have := congrArg List.length heq
  simp at this

theorem forall₂_extend_refl (l : List ecsInfo) :
    List.Forall₂ (fun o n : ecsInfo => n.Labels = o.Labels ∧ o.Targets <+: n.Targets) l l := by
  induction l with
  | nil => exact List.Forall₂.nil
  | cons g rest ih => exact List.Forall₂.cons ⟨rfl, List.prefix_refl _⟩ ih

theorem groupsExtend_refl (l : List ecsInfo) : GroupsExtend l l :=
  ⟨l, [], (List.append_nil l).symm, forall₂_extend_refl l⟩

theorem appendsToFirstMatch_groupsExtend {target : String} {labels : GoMap}
    {old new : List ecsInfo} (h : AppendsToFirstMatch target labels old new) :
    GroupsExtend old new := by
  obtain ⟨pre, g, post, rfl, -, -, rfl⟩ := h
  refine ⟨_, [], (List.append_nil _).symm, ?_⟩
  exact List.rel_append (forall₂_extend_refl pre)
    (List.Forall₂.cons ⟨rfl, List.prefix_append _ _⟩ (forall₂_extend_refl post))

theorem addsGroup_groupsExtend {target : String} {labels : GoMap}
    {old new : List ecsInfo} (h : AddsGroup target labels old new) :
    GroupsExtend old new := by
  obtain ⟨-, rfl⟩ := h
  exact ⟨old, _, rfl, forall₂_extend_refl old⟩

/-- The three outcomes of `instanceStep`, read off its definition. -/
theorem instanceStep_ok {compile : String → Option Regexp} {flags : ecsCmdFlags}
    {vpcMap : GoMap} {st st' : RunState} {inst : Instance}
    (h : instanceStep compile flags vpcMap st inst = .ok st') :
    st'.allInstances = st.allInstances ++ [inst] ∧
    (((scopeFilter compile flags inst = .ok false ∨
          (scopeFilter compile flags inst = .ok true ∧
            st.instanceList.index inst.InstanceName ≠ "")) ∧
        st'.ecsInfoList = st.ecsInfoList ∧ st'.instanceList = st.instanceList) ∨
      (scopeFilter compile flags inst = .ok true ∧
        st.instanceList.index inst.InstanceName = "" ∧
        st'.ecsInfoList = groupInstance flags vpcMap inst st.ecsInfoList ∧
        st'.instanceList = st.instanceList.insert inst.InstanceName inst.InstanceId)) := by
  unfold instanceStep at h
  cases hf : scopeFilter compile flags inst with
  | error e => simp [hf] at h
  | ok b =>
    cases b with
    | false =>
      simp only [hf] at h
      cases h
      exact ⟨rfl, Or.inl ⟨Or.inl rfl, rfl, rfl⟩⟩
    | true =>
      simp only [hf] at h
      by_cases hd : st.instanceList.index inst.InstanceName ≠ ""
      · rw [if_pos hd] at h
        cases h
        exact ⟨rfl, Or.inl ⟨Or.inr ⟨rfl, hd⟩, rfl, rfl⟩⟩
      · rw [if_neg hd] at h
        cases h
        exact ⟨rfl, Or.inr ⟨rfl, not_not.mp hd, rfl, rfl⟩⟩


theorem forall₂_extend_trans {l₁ l₂ l₃ : List ecsInfo}
    (h₁ : List.Forall₂ (fun o n : ecsInfo => n.Labels = o.Labels ∧ o.Targets <+: n.Targets) l₁ l₂)
    (h₂ : List.Forall₂ (fun o n : ecsInfo => n.Labels = o.Labels ∧ o.Targets <+: n.Targets) l₂ l₃) :
    List.Forall₂ (fun o n : ecsInfo => n.Labels = o.Labels ∧ o.Targets <+: n.Targets) l₁ l₃ := by
  induction h₁ generalizing l₃ with
  | nil => cases h₂; exact List.Forall₂.nil
  | cons hab _ ih =>
    cases h₂ with
    | cons hbc htail =>
      exact List.Forall₂.cons ⟨hbc.1.trans hab.1, hab.2.trans hbc.2⟩ (ih htail)

theorem groupsExtend_trans {l₁ l₂ l₃ : List ecsInfo} (h₁ : GroupsExtend l₁ l₂)
    (h₂ : GroupsExtend l₂ l₃) : GroupsExtend l₁ l₃ := by
  obtain ⟨kept₁, added₁, rfl, hk₁⟩ := h₁
  obtain ⟨kept₂, added₂, rfl, hk₂⟩ := h₂
  have ht := List.forall₂_take kept₁.length hk₂
  rw [List.take_left' rfl] at ht
  refine ⟨kept₂.take kept₁.length, kept₂.drop kept₁.length ++ added₂, ?_,
    forall₂_extend_trans hk₁ ht⟩
  rw [← List.append_assoc, List.take_append_drop]

theorem instanceStep_groupsExtend {compile : String → Option Regexp} {flags : ecsCmdFlags}
    {vpcMap : GoMap} {st st' : RunState} {inst : Instance}
    (h : instanceStep compile flags vpcMap st inst = .ok st') :
    GroupsExtend st.ecsInfoList st'.ecsInfoList := by
  rcases (instanceStep_ok h).2 with ⟨-, hl, -⟩ | ⟨-, -, hl, -⟩
  · rw [hl]; exact groupsExtend_refl _
  · rw [hl]
    rcases groupInstance_cases flags vpcMap inst st.ecsInfoList with ha | hc
    · exact appendsToFirstMatch_groupsExtend ha
    · exact addsGroup_groupsExtend hc

theorem processInstances_groupsExtend {compile : String → Option Regexp} {flags : ecsCmdFlags}
    {vpcMap : GoMap} {insts : List Instance} {st st' : RunState}
    (h : processInstances compile flags vpcMap st insts = .ok st') :
    GroupsExtend st.ecsInfoList st'.ecsInfoList := by
  induction insts generalizing st with
  | nil =>
    simp only [processInstances] at h
    cases h
    exact groupsExtend_refl _
  | cons inst rest ih =>
    unfold processInstances at h
    cases hs : instanceStep compile flags vpcMap st inst with
    | error e => simp [hs] at h
    | ok st₁ =>
      simp only [hs] at h
      exact groupsExtend_trans (instanceStep_groupsExtend hs) (ih h)

/-- C8. Processing one more instance changes `ecsInfoList` in exactly one of three ways:
(a) not at all, which is the case of an instance rejected by the filter or dropped as a name
conflict; (b) one address is appended at the end of the targets of the first group whose labels
equal the label map of the instance; (c) one new group with that label map and the single
target is appended at the end of the list. In every case the groups that existed are still
there in the same number and order, with the same labels and with their old target list as a
prefix of the new one; the same therefore holds over any sequence of instances, so groups stand
in the order of their creation and targets in the order in which they were appended. -/
theorem instanceStep_three_ways (compile : String → Option Regexp) (flags : ecsCmdFlags)
    (vpcMap : GoMap) (st : RunState) :
    (∀ inst st', instanceStep compile flags vpcMap st inst = .ok st' →
      ((st'.ecsInfoList = st.ecsInfoList ∧
          (scopeFilter compile flags inst = .ok false ∨
            (scopeFilter compile flags inst = .ok true ∧
              st.instanceList.index inst.InstanceName ≠ "")) ∧
          ¬ AppendsToFirstMatch (targetOf inst.InstanceName) (buildLabels flags vpcMap inst)
            st.ecsInfoList st'.ecsInfoList ∧
          ¬ AddsGroup (targetOf inst.InstanceName) (buildLabels flags vpcMap inst)
            st.ecsInfoList st'.ecsInfoList) ∨
        (AppendsToFirstMatch (targetOf inst.InstanceName) (buildLabels flags vpcMap inst)
            st.ecsInfoList st'.ecsInfoList ∧
          st'.ecsInfoList ≠ st.ecsInfoList ∧
          ¬ AddsGroup (targetOf inst.InstanceName) (buildLabels flags vpcMap inst)
            st.ecsInfoList st'.ecsInfoList) ∨
        (AddsGroup (targetOf inst.InstanceName) (buildLabels flags vpcMap inst)
            st.ecsInfoList st'.ecsInfoList ∧
          st'.ecsInfoList ≠ st.ecsInfoList ∧
          ¬ AppendsToFirstMatch (targetOf inst.InstanceName) (buildLabels flags vpcMap inst)
            st.ecsInfoList st'.ecsInfoList)) ∧
      GroupsExtend st.ecsInfoList st'.ecsInfoList) ∧
    (∀ insts st', processInstances compile flags vpcMap st insts = .ok st' →
      GroupsExtend st.ecsInfoList st'.ecsInfoList) := by
  refine ⟨fun inst st' h => ⟨?_, instanceStep_groupsExtend h⟩,
    fun insts st' h => processInstances_groupsExtend h⟩
  rcases (instanceStep_ok h).2 with ⟨hd, hl, -⟩ | ⟨-, -, hl, -⟩
  · refine Or.inl ⟨hl, hd, fun ha => appendsToFirstMatch_ne ha hl, fun hc => addsGroup_ne hc hl⟩
  · rcases groupInstance_cases flags vpcMap inst st.ecsInfoList with ha | hc
    · rw [← hl] at ha
      exact Or.inr (Or.inl ⟨ha, appendsToFirstMatch_ne ha, appendsToFirstMatch_not_addsGroup ha⟩)
    · rw [← hl] at hc
      exact Or.inr (Or.inr ⟨hc, addsGroup_ne hc, fun ha => appendsToFirstMatch_not_addsGroup ha hc⟩)


/-- The steps from the initial state to `web01State` and on to `web02State` extend the groups. -/
theorem instanceStep_three_ways_witness :
    instanceStep literalCompile sampleFlags coreVpcMap RunState.init web01 = .ok web01State ∧
    processInstances literalCompile sampleFlags coreVpcMap web01State [web02] = .ok web02State ∧
    GroupsExtend RunState.init.ecsInfoList web01State.ecsInfoList ∧
    GroupsExtend web01State.ecsInfoList web02State.ecsInfoList :=
  ⟨by decide, by decide,
   ((instanceStep_three_ways literalCompile sampleFlags coreVpcMap RunState.init).1
      web01 web01State (by decide)).2,
   (instanceStep_three_ways literalCompile sampleFlags coreVpcMap web01State).2
      [web02] web02State (by decide)⟩

/-! ## The registry of names: first seen wins -/

theorem processInstances_append {compile : String → Option Regexp} {flags : ecsCmdFlags}
    {vpcMap : GoMap} (xs ys : List Instance) (st st' : RunState) :
    processInstances compile flags vpcMap st (xs ++ ys) = .ok st' ↔
      ∃ mid, processInstances compile flags vpcMap st xs = .ok mid ∧
        processInstances compile flags vpcMap mid ys = .ok st' := by
  induction xs generalizing st with
  | nil => simp [processInstances]
  | cons x rest ih =>
    simp only [List.cons_append, processInstances]
    cases hs : instanceStep compile flags vpcMap st x with
    | error e => simp
    | ok st₁ => simpa using ih st₁

theorem processInstances_cons {compile : String → Option Regexp} {flags : ecsCmdFlags}
    {vpcMap : GoMap} (x : Instance) (ys : List Instance) (st st' : RunState) :
    processInstances compile flags vpcMap st (x :: ys) = .ok st' ↔
      ∃ mid, instanceStep compile flags vpcMap st x = .ok mid ∧
        processInstances compile flags vpcMap mid ys = .ok st' := by
  simp only [processInstances]
  cases hs : instanceStep compile flags vpcMap st x with
  | error e => simp
  | ok st₁ => simp

theorem index_insert_self (m : GoMap) (k v : String) : GoMap.index (m.insert k v) k = v := by
  simp [GoMap.index, Finmap.lookup_insert]

theorem index_insert_of_ne (m : GoMap) {k k' : String} (v : String) (h : k' ≠ k) :
    GoMap.index (m.insert k v) k' = m.index k' := by
  simp [GoMap.index, Finmap.lookup_insert_of_ne _ h]

theorem index_empty (k : String) : (∅ : GoMap).index k = "" := by
  simp [GoMap.index, Finmap.lookup_empty]

/-- A registry entry that is not the empty string is never replaced. -/
theorem instanceStep_index_of_ne {compile : String → Option Regexp} {flags : ecsCmdFlags}
    {vpcMap : GoMap} {st st' : RunState} {inst : Instance} {n : String}
    (h : instanceStep compile flags vpcMap st inst = .ok st')
    (hn : st.instanceList.index n ≠ "") :
    st'.instanceList.index n = st.instanceList.index n := by
  rcases (instanceStep_ok h).2 with ⟨-, -, hr⟩ | ⟨-, hfree, -, hr⟩
  · rw [hr]
  · rw [hr]
    apply index_insert_of_ne
    rintro rfl
    exact hn hfree

theorem processInstances_index_of_ne {compile : String → Option Regexp} {flags : ecsCmdFlags}
    {vpcMap : GoMap} {insts : List Instance} {st st' : RunState} {n : String}
    (h : processInstances compile flags vpcMap st insts = .ok st')
    (hn : st.instanceList.index n ≠ "") :
    st'.instanceList.index n = st.instanceList.index n := by
  induction insts generalizing st with
  | nil =>
    simp only [processInstances] at h
    cases h
    rfl
  | cons inst rest ih =>
    obtain ⟨mid, hs, hrest⟩ := (processInstances_cons _ _ _ _).mp h
    have h1 := instanceStep_index_of_ne hs hn
    rw [ih hrest (by rw [h1]; exact hn), h1]

/-- An instance that is rejected by the filter, or has another name, leaves the entry of the
name `n` alone. -/
theorem instanceStep_index_of_other {compile : String → Option Regexp} {flags : ecsCmdFlags}
    {vpcMap : GoMap} {st st' : RunState} {inst : Instance} {n : String}
    (h : instanceStep compile flags vpcMap st inst = .ok st')
    (hn : scopeFilter compile flags inst = .ok true → inst.InstanceName ≠ n) :
    st'.instanceList.index n = st.instanceList.index n := by
  rcases (instanceStep_ok h).2 with ⟨-, -, hr⟩ | ⟨hpass, -, -, hr⟩
  · rw [hr]
  · rw [hr]
    exact index_insert_of_ne _ _ (fun heq => hn hpass heq.symm)

theorem processInstances_index_of_other {compile : String → Option Regexp}
    {flags : ecsCmdFlags} {vpcMap : GoMap} {insts : List Instance} {st st' : RunState}
    {n : String}
    (h : processInstances compile flags vpcMap st insts = .ok st')
    (hn : ∀ i ∈ insts, scopeFilter compile flags i = .ok true → i.InstanceName ≠ n) :
    st'.instanceList.index n = st.instanceList.index n := by
  induction insts generalizing st with
  | nil =>
    simp only [processInstances] at h
    cases h
    rfl
  | cons inst rest ih =>
    obtain ⟨mid, hs, hrest⟩ := (processInstances_cons _ _ _ _).mp h
    rw [ih hrest (fun i hi => hn i (List.mem_cons_of_mem _ hi)),
      instanceStep_index_of_other hs (hn inst (List.mem_cons_self _ _))]

/-- The target list of the grouped instance is the old one with its address added. -/
theorem allTargets_groupInstance (flags : ecsCmdFlags) (vpcMap : GoMap) (inst : Instance)
    (l : List ecsInfo) :
    (allTargets (groupInstance flags vpcMap inst l)).Perm
      (allTargets l ++ [targetOf inst.InstanceName]) := by
  rcases groupInstance_cases flags vpcMap inst l with ⟨pre, g, post, hl, -, -, hnew⟩ | ⟨-, hnew⟩
  · rw [hnew]
    conv_rhs => rw [hl]
    simp only [allTargets, List.flatMap_append, List.flatMap_cons, List.append_assoc]
    refine List.Perm.append_left _ (List.Perm.append_left _ ?_)
    exact List.perm_append_comm
  · rw [hnew]
    simp [allTargets, List.flatMap_append]


/-- C2, at the failing input. The instances `db01` and `db01Again` both pass the filter and
share the name `db01`; the first has the empty string as identifier, so that the test
`instanceList[name] != ""` of line 183 takes the name for unregistered. The later instance is
not dropped: it adds its address to the group and replaces the registry entry. -/
theorem duplicate_kept_after_empty_identifier :
    scopeFilter literalCompile plainFlags db01 = .ok true ∧
    scopeFilter literalCompile plainFlags db01Again = .ok true ∧
    db01Again.InstanceName = db01.InstanceName ∧
    processInstances literalCompile plainFlags ∅ RunState.init [db01] =
      .ok ⟨[⟨["db01.ali-netbase.com:9100"], db01Labels⟩], (∅ : GoMap).insert "db01" "", [db01]⟩ ∧
    instanceStep literalCompile plainFlags ∅
        ⟨[⟨["db01.ali-netbase.com:9100"], db01Labels⟩], (∅ : GoMap).insert "db01" "", [db01]⟩
        db01Again =
      .ok ⟨[⟨["db01.ali-netbase.com:9100", "db01.ali-netbase.com:9100"], db01Labels⟩],
        ((∅ : GoMap).insert "db01" "").insert "db01" "i-db01", [db01, db01Again]⟩ ∧
    GoMap.index (((∅ : GoMap).insert "db01" "").insert "db01" "i-db01") "db01" ≠
      db01.InstanceId := by
  refine ⟨by decide, by decide, rfl, by decide, by decide, by decide⟩

/-- The duplicate check where it works. Take two instances that both pass the scope filter and
share a name, the first of them being the first instance of the inventory that passes the filter
with that name and having an identifier other than the empty string. Once the first has been processed its
address is among the targets and the registry holds its identifier under the name, however many
instances follow; processing the later instance then adds no target to any group, creates no
group and leaves the registry as it is. -/
theorem first_seen_wins (compile : String → Option Regexp) (flags : ecsCmdFlags)
    (vpcMap : GoMap) (pre mid : List Instance) (first later : Instance) (st : RunState)
    (hfirst : scopeFilter compile flags first = .ok true)
    (hlater : scopeFilter compile flags later = .ok true)
    (hname : later.InstanceName = first.InstanceName)
    (hfresh : ∀ i ∈ pre, scopeFilter compile flags i = .ok true →
      i.InstanceName ≠ first.InstanceName)
    (hid : first.InstanceId ≠ "")
    (hrun : processInstances compile flags vpcMap RunState.init (pre ++ first :: mid) = .ok st) :
    targetOf first.InstanceName ∈ allTargets st.ecsInfoList ∧
    st.instanceList.index first.InstanceName = first.InstanceId ∧
    ∃ st', instanceStep compile flags vpcMap st later = .ok st' ∧
      st'.ecsInfoList = st.ecsInfoList ∧ st'.instanceList = st.instanceList := by
  obtain ⟨s₁, hpre, hrest⟩ := (processInstances_append _ _ _ _).mp hrun
  obtain ⟨s₂, hstep, hmid⟩ := (processInstances_cons _ _ _ _).mp hrest
  have hfree : s₁.instanceList.index first.InstanceName = "" := by
    rw [processInstances_index_of_other hpre hfresh]
    exact index_empty _
  have hs₂ : s₂.ecsInfoList = groupInstance flags vpcMap first s₁.ecsInfoList ∧
      s₂.instanceList = s₁.instanceList.insert first.InstanceName first.InstanceId := by
    rcases (instanceStep_ok hstep).2 with ⟨hd, -, -⟩ | ⟨-, -, hl, hr⟩
    · rcases hd with hrej | ⟨-, hdup⟩
      · rw [hfirst] at hrej; cases hrej
      · exact absurd hfree hdup
    · exact ⟨hl, hr⟩
  have hreg₂ : s₂.instanceList.index first.InstanceName = first.InstanceId := by
    rw [hs₂.2]; exact index_insert_self _ _ _
  have hreg : st.instanceList.index first.InstanceName = first.InstanceId := by
    rw [processInstances_index_of_ne hmid (by rw [hreg₂]; exact hid), hreg₂]
  have htarget₂ : targetOf first.InstanceName ∈ allTargets s₂.ecsInfoList := by
    rw [hs₂.1]
    exact (allTargets_groupInstance flags vpcMap first s₁.ecsInfoList).symm.subset (by simp)
  have htarget : targetOf first.InstanceName ∈ allTargets st.ecsInfoList := by
    obtain ⟨kept, added, hnew, hk⟩ := processInstances_groupsExtend hmid
    obtain ⟨g, hg, ht⟩ := List.mem_flatMap.mp htarget₂
    obtain ⟨i, hi, hgi⟩ := List.getElem_of_mem hg
    have hik : i < kept.length := by rw [← hk.length_eq]; exact hi
    have hrel := List.Forall₂.get hk hi hik
    rw [hnew]
    refine List.mem_flatMap.mpr ⟨kept.get ⟨i, hik⟩, ?_, ?_⟩
    · exact List.mem_append_left _ (List.get_mem _ _ _)
    · apply hrel.2.subset
      simpa [hgi] using ht
  refine ⟨htarget, hreg, ?_⟩
  have hdup : st.instanceList.index later.InstanceName ≠ "" := by
    rw [hname, hreg]; exact hid
  refine ⟨{ st with allInstances := st.allInstances ++ [later] }, ?_, rfl, rfl⟩
  simp only [instanceStep, hlater]
  rw [if_pos hdup]

/-- After `web01` and `web02`, the later instance named `web01` changes neither the groups nor the
registry. -/
theorem first_seen_wins_witness :
    scopeFilter literalCompile sampleFlags web01 = .ok true ∧
    scopeFilter literalCompile sampleFlags web01Again = .ok true ∧
    web01Again.InstanceName = web01.InstanceName ∧
    web01.InstanceId ≠ "" ∧
    processInstances literalCompile sampleFlags coreVpcMap RunState.init ([] ++ web01 :: [web02])
      = .ok web02State ∧
    ∃ st', instanceStep literalCompile sampleFlags coreVpcMap web02State web01Again = .ok st' ∧
      st'.ecsInfoList = web02State.ecsInfoList ∧ st'.instanceList = web02State.instanceList :=
  ⟨by decide, by decide, rfl, by decide, by decide,
   (first_seen_wins literalCompile sampleFlags coreVpcMap [] [web02] web01 web01Again
      web02State (by decide) (by decide) rfl (by simp) (by decide) (by decide)).2.2⟩


/-! ## The targets are the admitted names, each once -/

theorem targetOf_injective : Function.Injective targetOf := by
  intro a b h
  have hd := congrArg String.data h
  simp only [targetOf, String.data_append] at hd
  have h1 := List.append_cancel_right (List.append_cancel_right
    (List.append_cancel_right (List.append_cancel_right hd)))
  exact String.ext h1

theorem admittedNames_append (compile : String → Option Regexp) (flags : ecsCmdFlags)
    (xs ys : List Instance) :
    admittedNames compile flags (xs ++ ys) =
      admittedNames compile flags xs ++ admittedNames compile flags ys := by
  simp [admittedNames]

theorem admittedNames_single_pass {compile : String → Option Regexp} {flags : ecsCmdFlags}
    {inst : Instance} (h : scopeFilter compile flags inst = .ok true) :
    admittedNames compile flags [inst] = [inst.InstanceName] := by
  simp [admittedNames, h]

theorem admittedNames_single_reject {compile : String → Option Regexp} {flags : ecsCmdFlags}
    {inst : Instance} (h : scopeFilter compile flags inst = .ok false) :
    admittedNames compile flags [inst] = [] := by
  simp [admittedNames, h]

theorem namesInv_init (compile : String → Option Regexp) (flags : ecsCmdFlags) :
    NamesInv compile flags RunState.init := by
  refine ⟨fun n => ?_, fun t => ?_, ?_⟩
  · simp [RunState.init, admittedNames, index_empty]
  · simp [RunState.init, admittedNames, allTargets]
  · simp [RunState.init, allTargets]

theorem namesInv_step {compile : String → Option Regexp} {flags : ecsCmdFlags}
    {vpcMap : GoMap} {st st' : RunState} {inst : Instance}
    (hinv : NamesInv compile flags st)
    (h : instanceStep compile flags vpcMap st inst = .ok st')
    (hid : inst.InstanceId ≠ "") : NamesInv compile flags st' := by
  obtain ⟨hR, hT, hN⟩ := hinv
  obtain ⟨hall, hcases⟩ := instanceStep_ok h
  rcases hcases with ⟨hd, hl, hr⟩ | ⟨hpass, hfree, hl, hr⟩
  · have hmem : ∀ n, n ∈ admittedNames compile flags st'.allInstances ↔
        n ∈ admittedNames compile flags st.allInstances := by
      intro n
      rw [hall, admittedNames_append]
      rcases hd with hrej | ⟨hpass, hdup⟩
      · rw [admittedNames_single_reject hrej, List.append_nil]
      · rw [admittedNames_single_pass hpass]
        simp only [List.mem_append, List.mem_singleton]
        constructor
        · rintro (h1 | rfl)
          · exact h1
          · exact (hR _).mp hdup
        · exact Or.inl
    refine ⟨fun n => ?_, fun t => ?_, ?_⟩
    · rw [hr, hR, hmem]
    · rw [hl, hT]
      constructor
      · rintro ⟨n, hn, rfl⟩; exact ⟨n, (hmem n).mpr hn, rfl⟩
      · rintro ⟨n, hn, rfl⟩; exact ⟨n, (hmem n).mp hn, rfl⟩
    · rw [hl]; exact hN
  · have hnew : inst.InstanceName ∉ admittedNames compile flags st.allInstances :=
      fun hin => (hR _).mpr hin hfree
    have hmem : ∀ n, n ∈ admittedNames compile flags st'.allInstances ↔
        (n ∈ admittedNames compile flags st.allInstances ∨ n = inst.InstanceName) := by
      intro n
      rw [hall, admittedNames_append, admittedNames_single_pass hpass]
      simp
    have hperm := allTargets_groupInstance flags vpcMap inst st.ecsInfoList
    have hfresh : targetOf inst.InstanceName ∉ allTargets st.ecsInfoList := by
      intro hin
      obtain ⟨n, hn, heq⟩ := (hT _).mp hin
      exact hnew (by rw [targetOf_injective heq]; exact hn)
    refine ⟨fun n => ?_, fun t => ?_, ?_⟩
    · rw [hr, hmem]
      by_cases hn : n = inst.InstanceName
      · subst hn
        rw [index_insert_self]
        exact ⟨fun _ => Or.inr rfl, fun _ => hid⟩
      · rw [index_insert_of_ne _ _ hn, hR]
        exact ⟨Or.inl, fun h' => h'.resolve_right hn⟩
    · rw [hl, hperm.mem_iff, List.mem_append, List.mem_singleton, hT]
      constructor
      · rintro (⟨n, hn, rfl⟩ | rfl)
        · exact ⟨n, (hmem n).mpr (Or.inl hn), rfl⟩
        · exact ⟨inst.InstanceName, (hmem _).mpr (Or.inr rfl), rfl⟩
      · rintro ⟨n, hn, rfl⟩
        rcases (hmem n).mp hn with hn | rfl
        · exact Or.inl ⟨n, hn, rfl⟩
        · exact Or.inr rfl
    · rw [hl, hperm.nodup_iff]
      exact List.Nodup.append hN (List.nodup_singleton _) (by simpa using hfresh)

theorem processInstances_allInstances {compile : String → Option Regexp}
    {flags : ecsCmdFlags} {vpcMap : GoMap} {insts : List Instance} {st st' : RunState}
    (h : processInstances compile flags vpcMap st insts = .ok st') :
    st'.allInstances = st.allInstances ++ insts := by
  induction insts generalizing st with
  | nil =>
    simp only [processInstances] at h
    cases h
    simp
  | cons inst rest ih =>
    obtain ⟨mid, hs, hrest⟩ := (processInstances_cons _ _ _ _).mp h
    rw [ih hrest, (instanceStep_ok hs).1, List.append_assoc]
    rfl

theorem namesInv_run {compile : String → Option Regexp} {flags : ecsCmdFlags}
    {vpcMap : GoMap} {insts : List Instance} {st st' : RunState}
    (hinv : NamesInv compile flags st)
    (h : processInstances compile flags vpcMap st insts = .ok st')
    (hid : ∀ i ∈ insts, i.InstanceId ≠ "") : NamesInv compile flags st' := by
  induction insts generalizing st with
  | nil =>
    simp only [processInstances] at h
    cases h
    exact hinv
  | cons inst rest ih =>
    obtain ⟨mid, hs, hrest⟩ := (processInstances_cons _ _ _ _).mp h
    exact ih (namesInv_step hinv hs (hid inst (List.mem_cons_self _ _))) hrest
      (fun i hi => hid i (List.mem_cons_of_mem _ hi))

/-- Every group has at least one target. -/
theorem groupInstance_targets_ne_nil (flags : ecsCmdFlags) (vpcMap : GoMap) (inst : Instance)
    (l : List ecsInfo) (hl : ∀ g ∈ l, g.Targets ≠ []) :
    ∀ g ∈ groupInstance flags vpcMap inst l, g.Targets ≠ [] := by
  rcases groupInstance_cases flags vpcMap inst l with ⟨pre, g, post, hold, -, -, hnew⟩ | ⟨-, hnew⟩
  · rw [hnew]
    intro x hx
    rcases List.mem_append.mp hx with hx | hx
    · exact hl x (by rw [hold]; exact List.mem_append_left _ hx)
    · rcases List.mem_cons.mp hx with rfl | hx
      · simp
      · exact hl x (by rw [hold]; exact List.mem_append_right _ (List.mem_cons_of_mem _ hx))
  · rw [hnew]
    intro x hx
    rcases List.mem_append.mp hx with hx | hx
    · exact hl x hx
    · rw [List.mem_singleton.mp hx]; simp

theorem processInstances_targets_ne_nil {compile : String → Option Regexp}
    {flags : ecsCmdFlags} {vpcMap : GoMap} {insts : List Instance} {st st' : RunState}
    (h : processInstances compile flags vpcMap st insts = .ok st')
    (hl : ∀ g ∈ st.ecsInfoList, g.Targets ≠ []) :
    ∀ g ∈ st'.ecsInfoList, g.Targets ≠ [] := by
  induction insts generalizing st with
  | nil =>
    simp only [processInstances] at h
    cases h
    exact hl
  | cons inst rest ih =>
    obtain ⟨mid, hs, hrest⟩ := (processInstances_cons _ _ _ _).mp h
    refine ih hrest ?_
    rcases (instanceStep_ok hs).2 with ⟨-, hl', -⟩ | ⟨-, -, hl', -⟩
    · rw [hl']; exact hl
    · rw [hl']; exact groupInstance_targets_ne_nil flags vpcMap inst _ hl

/-- In a list of groups without a repeated target, the number of groups that hold `t` is the
number of occurrences of `t`. -/
theorem groups_holding_eq_count (t : String) (l : List ecsInfo) (h : (allTargets l).Nodup) :
    (l.filter (fun g => decide (t ∈ g.Targets))).length = (allTargets l).count t := by
  induction l with
  | nil => simp [allTargets]
  | cons g rest ih =>
    have hsplit : allTargets (g :: rest) = g.Targets ++ allTargets rest := by
      simp [allTargets]
    rw [hsplit] at h ⊢
    have hg := (List.nodup_append.mp h).1
    have hrest := (List.nodup_append.mp h).2.1
    rw [List.count_append, ← ih hrest]
    by_cases ht : t ∈ g.Targets
    · rw [List.filter_cons_of_pos (by simpa using ht), List.count_eq_one_of_mem hg ht]
      simp [Nat.add_comm]
    · rw [List.filter_cons_of_neg (by simpa using ht), List.count_eq_zero_of_not_mem ht]
      simp


/-- C9. For every inventory in which every instance identifier is a non-empty string, the
target addresses of the final `ecsInfoList`, taken over all groups, are pairwise distinct (no
address occurs twice in a group or in two groups), every group has at least one target, the
targets are a rearrangement of the addresses `n.ali-netbase.com:9100` of the distinct names `n`
of the instances that pass the scope filter, so their number is the number of these names, and
the address of each such name occurs exactly once and in exactly one group. -/
theorem targets_partition (compile : String → Option Regexp) (flags : ecsCmdFlags)
    (vpcMap : GoMap) (insts : List Instance) (final : RunState)
    (hid : ∀ i ∈ insts, i.InstanceId ≠ "")
    (hrun : processInstances compile flags vpcMap RunState.init insts = .ok final) :
    (allTargets final.ecsInfoList).Nodup ∧
    (∀ g ∈ final.ecsInfoList, g.Targets ≠ []) ∧
    (allTargets final.ecsInfoList).Perm
      ((admittedNames compile flags insts).dedup.map
        (fun n => n ++ ".ali-netbase.com:9100")) ∧
    (allTargets final.ecsInfoList).length = (admittedNames compile flags insts).dedup.length ∧
    (∀ n ∈ admittedNames compile flags insts,
      (allTargets final.ecsInfoList).count (n ++ ".ali-netbase.com:9100") = 1 ∧
      (final.ecsInfoList.filter
        (fun g => decide (n ++ ".ali-netbase.com:9100" ∈ g.Targets))).length = 1) := by
  have htarget : ∀ n : String, n ++ ".ali-netbase.com:9100" = targetOf n := by
    intro n
    apply String.ext
    simp [targetOf, nodeExporterPort, String.data_append]
  have hfun : (fun n : String => n ++ ".ali-netbase.com:9100") = targetOf := funext htarget
  obtain ⟨-, hT, hN⟩ := namesInv_run (namesInv_init compile flags) hrun hid
  have hall : final.allInstances = insts := by
    rw [processInstances_allInstances hrun]; rfl
  rw [hall] at hT
  have hperm : (allTargets final.ecsInfoList).Perm
      ((admittedNames compile flags insts).dedup.map targetOf) := by
    rw [List.perm_ext_iff_of_nodup hN
      ((List.nodup_dedup _).map targetOf_injective)]
    intro t
    rw [hT, List.mem_map]
    constructor
    · rintro ⟨n, hn, rfl⟩; exact ⟨n, List.mem_dedup.mpr hn, rfl⟩
    · rintro ⟨n, hn, rfl⟩; exact ⟨n, List.mem_dedup.mp hn, rfl⟩
  refine ⟨hN, processInstances_targets_ne_nil hrun (by simp [RunState.init]), ?_, ?_, ?_⟩
  · rw [hfun]; exact hperm
  · rw [hperm.length_eq, List.length_map]
  · intro n hn
    rw [htarget]
    have hmem : targetOf n ∈ allTargets final.ecsInfoList := (hT _).mpr ⟨n, hn, rfl⟩
    have hcount := List.count_eq_one_of_mem hN hmem
    exact ⟨hcount, by rw [groups_holding_eq_count _ _ hN, hcount]⟩

/-- The inventory `web01`, `web02`, `web01Again` yields two targets for its two names. -/
theorem targets_partition_witness :
    (∀ i ∈ [web01, web02, web01Again], i.InstanceId ≠ "") ∧
    processInstances literalCompile sampleFlags coreVpcMap RunState.init
      [web01, web02, web01Again] =
      .ok { web02State with allInstances := [web01, web02, web01Again] } ∧
    (allTargets web02State.ecsInfoList).length =
      (admittedNames literalCompile sampleFlags [web01, web02, web01Again]).dedup.length :=
  ⟨by decide, by decide,
   (targets_partition literalCompile sampleFlags coreVpcMap [web01, web02, web01Again]
      { web02State with allInstances := [web01, web02, web01Again] }
      (by decide) (by decide)).2.2.2.1⟩


/-! ## Grouping by label map -/

theorem getElem?_middle {α : Type} (pre post : List α) (g : α) :
    (pre ++ g :: post)[pre.length]? = some g := by
  rw [List.getElem?_append_right (Nat.le_refl _)]
  simp

theorem getElem?_split {α : Type} {l : List α} {j : Nat} {g : α} (h : l[j]? = some g) :
    ∃ pre post, l = pre ++ g :: post ∧ pre.length = j := by
  induction l generalizing j with
  | nil => simp at h
  | cons x rest ih =>
    cases j with
    | zero =>
      simp at h
      exact ⟨[], rest, by simp [h], rfl⟩
    | succ j =>
      simp at h
      obtain ⟨pre, post, hl, hlen⟩ := ih h
      exact ⟨x :: pre, post, by simp [hl], by simp [hlen]⟩

theorem groupIndex_middle (labels : GoMap) (pre post : List ecsInfo) (g : ecsInfo)
    (hpre : ∀ x ∈ pre, x.Labels ≠ labels) (hg : g.Labels = labels) :
    groupIndex labels (pre ++ g :: post) = pre.length := by
  induction pre with
  | nil => simp [groupIndex, List.findIdx_cons, hg]
  | cons x rest ih =>
    have hx : x.Labels ≠ labels := hpre x (List.mem_cons_self _ _)
    have := ih (fun y hy => hpre y (List.mem_cons_of_mem _ hy))
    simp only [groupIndex] at this
    simp [groupIndex, List.findIdx_cons, hx, this]

theorem groupIndex_none (labels : GoMap) (l : List ecsInfo)
    (h : ∀ x ∈ l, x.Labels ≠ labels) : groupIndex labels l = l.length := by
  induction l with
  | nil => rfl
  | cons x rest ih =>
    have hx : x.Labels ≠ labels := h x (List.mem_cons_self _ _)
    have := ih (fun y hy => h y (List.mem_cons_of_mem _ hy))
    simp only [groupIndex] at this
    simp [groupIndex, List.findIdx_cons, hx, this]

/-- After grouping, the group at the position `groupIndex` has the labels of the instance and
its address as last target, after the targets the group had before. -/
theorem groupInstance_at_index (flags : ecsCmdFlags) (vpcMap : GoMap) (inst : Instance)
    (l : List ecsInfo) :
    ∃ g, (groupInstance flags vpcMap inst l)[groupIndex (buildLabels flags vpcMap inst) l]?
        = some g ∧
      g.Labels = buildLabels flags vpcMap inst ∧
      g.Targets =
        ((l[groupIndex (buildLabels flags vpcMap inst) l]?).map ecsInfo.Targets).getD [] ++
          [targetOf inst.InstanceName] := by
  rcases groupInstance_cases flags vpcMap inst l with
    ⟨pre, g, post, hold, hpre, hg, hnew⟩ | ⟨hno, hnew⟩
  · have hk : groupIndex (buildLabels flags vpcMap inst) l = pre.length := by
      rw [hold]; exact groupIndex_middle _ pre post g hpre hg
    rw [hk, hnew]
    refine ⟨_, getElem?_middle _ _ _, hg, ?_⟩
    rw [hold, getElem?_middle]
    rfl
  · rw [groupIndex_none _ l hno, hnew]
    refine ⟨_, List.getElem?_concat_length _ _, rfl, ?_⟩
    simp

theorem groupsExtend_getElem? {old new : List ecsInfo} (h : GroupsExtend old new) {i : Nat}
    {g : ecsInfo} (hg : old[i]? = some g) :
    ∃ g', new[i]? = some g' ∧ g'.Labels = g.Labels ∧ g.Targets <+: g'.Targets := by
  obtain ⟨kept, added, rfl, hk⟩ := h
  obtain ⟨hi, hgi⟩ := List.getElem?_eq_some.mp hg
  have hik : i < kept.length := by rw [← hk.length_eq]; exact hi
  have hrel := List.Forall₂.get hk hi hik
  rw [List.get_eq_getElem, List.get_eq_getElem] at hrel
  simp only at hrel
  refine ⟨kept[i], ?_, ?_, ?_⟩
  · rw [List.getElem?_append_left hik]
    exact List.getElem?_eq_getElem hik
  · rw [← hgi]; exact hrel.1
  · rw [← hgi]; exact hrel.2

/-- No two groups carry the same label map: kept by the grouping step. -/
theorem groupInstance_labels_nodup (flags : ecsCmdFlags) (vpcMap : GoMap) (inst : Instance)
    (l : List ecsInfo) (h : (l.map ecsInfo.Labels).Nodup) :
    ((groupInstance flags vpcMap inst l).map ecsInfo.Labels).Nodup := by
  rcases groupInstance_cases flags vpcMap inst l with
    ⟨pre, g, post, hold, -, -, hnew⟩ | ⟨hno, hnew⟩
  · rw [hnew]
    rw [hold] at h
    simpa using h
  · rw [hnew, List.map_append]
    refine List.Nodup.append h (List.nodup_singleton _) ?_
    intro x hx hx'
    obtain ⟨g, hg, rfl⟩ := List.mem_map.mp hx
    simp only [List.map_cons, List.map_nil, List.mem_singleton] at hx'
    exact hno g hg hx'

theorem processInstances_labels_nodup {compile : String → Option Regexp}
    {flags : ecsCmdFlags} {vpcMap : GoMap} {insts : List Instance} {st st' : RunState}
    (h : processInstances compile flags vpcMap st insts = .ok st')
    (hl : (st.ecsInfoList.map ecsInfo.Labels).Nodup) :
    (st'.ecsInfoList.map ecsInfo.Labels).Nodup := by
  induction insts generalizing st with
  | nil =>
    simp only [processInstances] at h
    cases h
    exact hl
  | cons inst rest ih =>
    obtain ⟨mid, hs, hrest⟩ := (processInstances_cons _ _ _ _).mp h
    refine ih hrest ?_
    rcases (instanceStep_ok hs).2 with ⟨-, hl', -⟩ | ⟨-, -, hl', -⟩
    · rw [hl']; exact hl
    · rw [hl']; exact groupInstance_labels_nodup flags vpcMap inst _ hl

/-- When no two groups carry the same label map, the group index of the labels of the group at
position `j` is `j`. -/
theorem groupIndex_of_getElem? {l : List ecsInfo} (hl : (l.map ecsInfo.Labels).Nodup)
    {j : Nat} {g : ecsInfo} (hg : l[j]? = some g) : groupIndex g.Labels l = j := by
  obtain ⟨pre, post, rfl, rfl⟩ := getElem?_split hg
  apply groupIndex_middle _ _ _ _ _ rfl
  intro x hx heq
  rw [List.map_append, List.map_cons] at hl
  have hdisj := (List.nodup_append.mp hl).2.2
  exact hdisj (List.mem_map_of_mem _ hx) (by rw [heq]; exact List.mem_cons_self _ _)

/-- When no target occurs twice, a target lies in the group of one position only. -/
theorem position_unique_of_nodup {l : List ecsInfo} (hl : (allTargets l).Nodup) {t : String}
    {j k : Nat} {g g' : ecsInfo} (hg : l[j]? = some g) (hg' : l[k]? = some g')
    (ht : t ∈ g.Targets) (ht' : t ∈ g'.Targets) : j = k := by
  have key : ∀ {j k : Nat} {g g' : ecsInfo}, l[j]? = some g → l[k]? = some g' →
      t ∈ g.Targets → t ∈ g'.Targets → ¬ j < k := by
    intro j k g g' hg hg' ht ht' hlt
    obtain ⟨pre, post, rfl, rfl⟩ := getElem?_split hg
    rw [List.getElem?_append_right (Nat.le_of_lt hlt)] at hg'
    obtain ⟨d, hd⟩ : ∃ d, k - pre.length = d + 1 := ⟨k - pre.length - 1, by omega⟩
    rw [hd, List.getElem?_cons_succ] at hg'
    have hmem : t ∈ allTargets post :=
      List.mem_flatMap.mpr ⟨g', List.getElem?_mem hg', ht'⟩
    have hsplit : allTargets (pre ++ g :: post) =
        allTargets pre ++ (g.Targets ++ allTargets post) := by
      simp [allTargets]
    rw [hsplit] at hl
    have h2 := (List.nodup_append.mp hl).2.1
    exact (List.nodup_append.mp h2).2.2 ht hmem
  rcases Nat.lt_trichotomy j k with h | h | h
  · exact absurd h (key hg hg' ht ht')
  · exact h
  · exact absurd h (key hg' hg ht' ht)


/-- Grouping by position. Take two instances of an inventory that both pass the filter and
both reach grouping (their name is not in the registry when their turn comes), the first
discovered before the second. In the final `ecsInfoList` each address lies in the group its instance was put into,
and that group carries the label map of the instance. The two are put into the same group
exactly when their label maps are equal. When the maps are equal the earlier address stands
before the later one in the targets of that group, and it is the only group with these labels;
when the maps differ the two groups are different ones. In terms of addresses alone: whenever
no address occurs twice in the final list (which is so when no identifier is the empty string),
some group holds both addresses exactly when the label maps are equal. -/
theorem grouping_by_labels (compile : String → Option Regexp) (flags : ecsCmdFlags)
    (vpcMap : GoMap) (pre mid post : List Instance) (i₁ i₂ : Instance)
    (s₁ s₂ final : RunState)
    (hpre : processInstances compile flags vpcMap RunState.init pre = .ok s₁)
    (hpass₁ : scopeFilter compile flags i₁ = .ok true)
    (hfree₁ : s₁.instanceList.index i₁.InstanceName = "")
    (hmid : processInstances compile flags vpcMap s₁ (i₁ :: mid) = .ok s₂)
    (hpass₂ : scopeFilter compile flags i₂ = .ok true)
    (hfree₂ : s₂.instanceList.index i₂.InstanceName = "")
    (hpost : processInstances compile flags vpcMap s₂ (i₂ :: post) = .ok final) :
    ∃ g₁ g₂,
      final.ecsInfoList[groupIndex (buildLabels flags vpcMap i₁) s₁.ecsInfoList]? = some g₁ ∧
      final.ecsInfoList[groupIndex (buildLabels flags vpcMap i₂) s₂.ecsInfoList]? = some g₂ ∧
      g₁.Labels = buildLabels flags vpcMap i₁ ∧ g₂.Labels = buildLabels flags vpcMap i₂ ∧
      targetOf i₁.InstanceName ∈ g₁.Targets ∧ targetOf i₂.InstanceName ∈ g₂.Targets ∧
      (groupIndex (buildLabels flags vpcMap i₁) s₁.ecsInfoList =
          groupIndex (buildLabels flags vpcMap i₂) s₂.ecsInfoList ↔
        buildLabels flags vpcMap i₁ = buildLabels flags vpcMap i₂) ∧
      (buildLabels flags vpcMap i₁ = buildLabels flags vpcMap i₂ →
        List.Sublist [targetOf i₁.InstanceName, targetOf i₂.InstanceName] g₁.Targets ∧
        ∀ j g, final.ecsInfoList[j]? = some g → g.Labels = buildLabels flags vpcMap i₁ →
          j = groupIndex (buildLabels flags vpcMap i₁) s₁.ecsInfoList) ∧
      (buildLabels flags vpcMap i₁ ≠ buildLabels flags vpcMap i₂ → g₁ ≠ g₂) ∧
      ((allTargets final.ecsInfoList).Nodup →
        ((∃ g ∈ final.ecsInfoList,
            targetOf i₁.InstanceName ∈ g.Targets ∧ targetOf i₂.InstanceName ∈ g.Targets) ↔
          buildLabels flags vpcMap i₁ = buildLabels flags vpcMap i₂)) := by
  -- the states right after each of the two instances
  obtain ⟨a₁, hstep₁, hmid'⟩ := (processInstances_cons _ _ _ _).mp hmid
  obtain ⟨a₂, hstep₂, hpost'⟩ := (processInstances_cons _ _ _ _).mp hpost
  have hgrouped : ∀ {st st' : RunState} {i : Instance},
      instanceStep compile flags vpcMap st i = .ok st' →
      scopeFilter compile flags i = .ok true → st.instanceList.index i.InstanceName = "" →
      st'.ecsInfoList = groupInstance flags vpcMap i st.ecsInfoList := by
    intro st st' i hs hp hf
    rcases (instanceStep_ok hs).2 with ⟨hd, -, -⟩ | ⟨-, -, hl, -⟩
    · rcases hd with hrej | ⟨-, hdup⟩
      · rw [hp] at hrej; cases hrej
      · exact absurd hf hdup
    · exact hl
  have ha₁ := hgrouped hstep₁ hpass₁ hfree₁
  have ha₂ := hgrouped hstep₂ hpass₂ hfree₂
  -- no two groups share a label map, at any time
  have hnd₀ : (RunState.init.ecsInfoList.map ecsInfo.Labels).Nodup := by simp [RunState.init]
  have hnd₁ := processInstances_labels_nodup hpre hnd₀
  have hnd₂ := processInstances_labels_nodup hmid hnd₁
  have hndf := processInstances_labels_nodup hpost hnd₂
  -- the first instance, followed to the end
  obtain ⟨b₁, hb₁, hb₁L, hb₁T⟩ := groupInstance_at_index flags vpcMap i₁ s₁.ecsInfoList
  rw [← ha₁] at hb₁
  obtain ⟨c₁, hc₁, hc₁L, hc₁T⟩ := groupsExtend_getElem? (processInstances_groupsExtend hmid') hb₁
  obtain ⟨g₁, hg₁, hg₁L, hg₁T⟩ := groupsExtend_getElem? (processInstances_groupsExtend hpost) hc₁
  have ht₁c : targetOf i₁.InstanceName ∈ c₁.Targets :=
    hc₁T.subset (by rw [hb₁T]; simp)
  -- the second instance, followed to the end
  obtain ⟨b₂, hb₂, hb₂L, hb₂T⟩ := groupInstance_at_index flags vpcMap i₂ s₂.ecsInfoList
  rw [← ha₂] at hb₂
  obtain ⟨g₂, hg₂, hg₂L, hg₂T⟩ := groupsExtend_getElem? (processInstances_groupsExtend hpost') hb₂
  have hL₁ : g₁.Labels = buildLabels flags vpcMap i₁ := by rw [hg₁L, hc₁L, hb₁L]
  have hL₂ : g₂.Labels = buildLabels flags vpcMap i₂ := by rw [hg₂L, hb₂L]
  have hiff : groupIndex (buildLabels flags vpcMap i₁) s₁.ecsInfoList =
      groupIndex (buildLabels flags vpcMap i₂) s₂.ecsInfoList ↔
      buildLabels flags vpcMap i₁ = buildLabels flags vpcMap i₂ := by
    constructor
    · intro hk
      rw [hk, hg₂] at hg₁
      rw [← hL₁, ← hL₂, Option.some.inj hg₁]
    · intro hL
      have hcL : c₁.Labels = buildLabels flags vpcMap i₂ := by rw [hc₁L, hb₁L, hL]
      have := groupIndex_of_getElem? hnd₂ hc₁
      rw [hcL] at this
      exact this.symm
  refine ⟨g₁, g₂, hg₁, hg₂, hL₁, hL₂, hg₁T.subset ht₁c,
    hg₂T.subset (by rw [hb₂T]; simp), hiff, ?_, ?_, ?_⟩
  · intro hL
    have hk := hiff.mpr hL
    constructor
    · rw [← hk, hc₁] at hb₂T
      simp only [Option.map_some', Option.getD_some] at hb₂T
      rw [← hk, hg₁] at hg₂
      rw [Option.some.inj hg₂]
      refine List.Sublist.trans ?_ hg₂T.sublist
      rw [hb₂T]
      exact List.Sublist.append (List.singleton_sublist.mpr ht₁c) (List.Sublist.refl _)
    · intro j g hg hgL
      have h1 := groupIndex_of_getElem? hndf hg
      have h2 := groupIndex_of_getElem? hndf hg₁
      rw [hgL] at h1
      rw [hL₁] at h2
      rw [← h1, h2]
  · intro hL heq
    exact hL (by rw [← hL₁, ← hL₂, heq])
  · intro hN
    constructor
    · rintro ⟨g, hg, ht₁, ht₂⟩
      obtain ⟨j, hj⟩ := List.getElem?_of_mem hg
      have h1 := position_unique_of_nodup hN hj hg₁ ht₁ (hg₁T.subset ht₁c)
      have h2 := position_unique_of_nodup hN hj hg₂ ht₂ (hg₂T.subset (by rw [hb₂T]; simp))
      exact hiff.mp (by rw [← h1, ← h2])
    · intro hL
      have hk := hiff.mpr hL
      rw [← hk, hg₁] at hg₂
      refine ⟨g₁, List.getElem?_mem hg₁, hg₁T.subset ht₁c, ?_⟩
      rw [Option.some.inj hg₂]
      exact hg₂T.subset (by rw [hb₂T]; simp)

/-- In the inventory `web01`, `webtest`, `web02` the instances `web01` and `web02` have equal label
maps and share a group. -/
theorem grouping_by_labels_witness :
    processInstances literalCompile sampleFlags coreVpcMap RunState.init [] =
      .ok RunState.init ∧
    scopeFilter literalCompile sampleFlags web01 = .ok true ∧
    GoMap.index RunState.init.instanceList web01.InstanceName = "" ∧
    processInstances literalCompile sampleFlags coreVpcMap RunState.init [web01, webtest] =
      .ok webtestState ∧
    scopeFilter literalCompile sampleFlags web02 = .ok true ∧
    GoMap.index webtestState.instanceList web02.InstanceName = "" ∧
    processInstances literalCompile sampleFlags coreVpcMap webtestState [web02] =
      .ok threeState ∧
    (groupIndex (buildLabels sampleFlags coreVpcMap web01) RunState.init.ecsInfoList =
        groupIndex (buildLabels sampleFlags coreVpcMap web02) webtestState.ecsInfoList ↔
      buildLabels sampleFlags coreVpcMap web01 = buildLabels sampleFlags coreVpcMap web02) := by
  refine ⟨by decide, by decide, by decide, by decide, by decide, by decide, by decide, ?_⟩
  obtain ⟨g₁, g₂, -, -, -, -, -, -, h, -⟩ :=
    grouping_by_labels literalCompile sampleFlags coreVpcMap [] [webtest] [] web01 web02
      RunState.init webtestState threeState (by decide) (by decide) (by decide) (by decide)
      (by decide) (by decide) (by decide)
  exact h


/-! ## The label map -/

theorem labelKey_empty (key : String) : labelKey "" key = key := by
  simp [labelKey]

theorem labelKey_of_ne {labelPrefix : String} (h : labelPrefix ≠ "") (key : String) :
    labelKey labelPrefix key = labelPrefix ++ "_" ++ key := by
  simp [labelKey, h]

theorem labelKey_injective (labelPrefix : String) :
    Function.Injective (labelKey labelPrefix) := by
  intro a b h
  by_cases hp : labelPrefix = ""
  · subst hp
    simpa [labelKey_empty] using h
  · rw [labelKey_of_ne hp, labelKey_of_ne hp] at h
    have hd := congrArg String.data h
    simp only [String.data_append, List.append_assoc] at hd
    exact String.ext (List.append_cancel_left (List.append_cancel_left hd))

/-- A rewritten key contains an underscore, so it is not `exporter`. -/
theorem labelKey_ne_exporter {labelPrefix : String} (h : labelPrefix ≠ "") (key : String) :
    labelKey labelPrefix key ≠ "exporter" := by
  rw [labelKey_of_ne h]
  intro heq
  have hd := congrArg String.data heq
  simp only [String.data_append] at hd
  have hmem : '_' ∈ labelPrefix.data ++ ['_'] ++ key.data := by simp
  rw [hd] at hmem
  revert hmem
  decide

theorem tagLabels_lookup_of_not_mem (labelPrefix : String) (tags : List Tag) (m : GoMap)
    (k : String) (h : ∀ tag ∈ tags, labelKey labelPrefix tag.TagKey ≠ k) :
    (tagLabels labelPrefix tags m).lookup k = m.lookup k := by
  induction tags generalizing m with
  | nil => rfl
  | cons tag rest ih =>
    simp only [tagLabels]
    rw [ih _ (fun t ht => h t (List.mem_cons_of_mem _ ht))]
    exact Finmap.lookup_insert_of_ne _ (fun heq => h tag (List.mem_cons_self _ _) heq.symm)

theorem tagLabels_lookup_of_mem (labelPrefix : String) (tags : List Tag) (m : GoMap)
    (hkeys : (tags.map Tag.TagKey).Nodup) (tag : Tag) (htag : tag ∈ tags) :
    (tagLabels labelPrefix tags m).lookup (labelKey labelPrefix tag.TagKey) =
      some tag.TagValue := by
  induction tags generalizing m with
  | nil => simp at htag
  | cons x rest ih =>
    simp only [tagLabels]
    rw [List.map_cons, List.nodup_cons] at hkeys
    rcases List.mem_cons.mp htag with rfl | hin
    · rw [tagLabels_lookup_of_not_mem]
      · exact Finmap.lookup_insert _
      · intro t ht heq
        apply hkeys.1
        rw [← labelKey_injective labelPrefix heq]
        exact List.mem_map_of_mem _ ht
    · exact ih _ hkeys.2 hin

/-- The network label is written last, so it always holds the directory entry. -/
theorem buildLabels_lookup_vpc (flags : ecsCmdFlags) (vpcMap : GoMap) (inst : Instance) :
    (buildLabels flags vpcMap inst).lookup (labelKey flags.labelPrefix "vpc") =
      some (vpcMap.index inst.VpcId) := by
  simp only [buildLabels]
  exact Finmap.lookup_insert _

theorem buildLabels_lookup_of_ne_vpc (flags : ecsCmdFlags) (vpcMap : GoMap) (inst : Instance)
    (k : String) (h : k ≠ labelKey flags.labelPrefix "vpc") :
    (buildLabels flags vpcMap inst).lookup k =
      (tagLabels flags.labelPrefix inst.Tags
        ((∅ : GoMap).insert "exporter" "node_exporter")).lookup k := by
  simp only [buildLabels]
  exact Finmap.lookup_insert_of_ne _ h

theorem buildLabels_lookup_exporter (flags : ecsCmdFlags) (vpcMap : GoMap) (inst : Instance)
    (h : flags.labelPrefix ≠ "" ∨ ∀ tag ∈ inst.Tags, tag.TagKey ≠ "exporter") :
    (buildLabels flags vpcMap inst).lookup "exporter" = some "node_exporter" := by
  have hvpc : "exporter" ≠ labelKey flags.labelPrefix "vpc" := by
    by_cases hp : flags.labelPrefix = ""
    · rw [hp, labelKey_empty]; decide
    · exact (labelKey_ne_exporter hp _).symm
  rw [buildLabels_lookup_of_ne_vpc _ _ _ _ hvpc, tagLabels_lookup_of_not_mem]
  · exact Finmap.lookup_insert _
  · intro tag htag
    rcases h with hp | hno
    · exact labelKey_ne_exporter hp _
    · by_cases hp : flags.labelPrefix = ""
      · rw [hp, labelKey_empty]; exact hno tag htag
      · exact labelKey_ne_exporter hp _

theorem buildLabels_lookup_tag (flags : ecsCmdFlags) (vpcMap : GoMap) (inst : Instance)
    (hkeys : (inst.Tags.map Tag.TagKey).Nodup) (tag : Tag) (htag : tag ∈ inst.Tags)
    (hvpc : tag.TagKey ≠ "vpc") :
    (buildLabels flags vpcMap inst).lookup (labelKey flags.labelPrefix tag.TagKey) =
      some tag.TagValue := by
  rw [buildLabels_lookup_of_ne_vpc _ _ _ _
    (fun heq => hvpc (labelKey_injective _ heq))]
  exact tagLabels_lookup_of_mem _ _ _ hkeys tag htag

/-- Every group of the list carries the label map that `buildLabels` gives for one of the
instances processed. -/
theorem processInstances_labels_built {compile : String → Option Regexp}
    {flags : ecsCmdFlags} {vpcMap : GoMap} {insts : List Instance} {st st' : RunState}
    (h : processInstances compile flags vpcMap st insts = .ok st')
    (P : GoMap → Prop) (hP : ∀ i, P (buildLabels flags vpcMap i))
    (hst : ∀ g ∈ st.ecsInfoList, P g.Labels) :
    ∀ g ∈ st'.ecsInfoList, P g.Labels := by
  induction insts generalizing st with
  | nil =>
    simp only [processInstances] at h
    cases h
    exact hst
  | cons inst rest ih =>
    obtain ⟨mid, hs, hrest⟩ := (processInstances_cons _ _ _ _).mp h
    refine ih hrest ?_
    rcases (instanceStep_ok hs).2 with ⟨-, hl, -⟩ | ⟨-, -, hl, -⟩
    · rw [hl]; exact hst
    · rw [hl]
      rcases groupInstance_cases flags vpcMap inst st.ecsInfoList with
        ⟨pre, g, post, hold, -, -, hnew⟩ | ⟨-, hnew⟩
      · rw [hnew]
        intro x hx
        rcases List.mem_append.mp hx with hx | hx
        · exact hst x (by rw [hold]; exact List.mem_append_left _ hx)
        · rcases List.mem_cons.mp hx with rfl | hx
          · exact hst g (by rw [hold]; simp)
          · exact hst x (by rw [hold]; exact List.mem_append_right _ (List.mem_cons_of_mem _ hx))
      · rw [hnew]
        intro x hx
        rcases List.mem_append.mp hx with hx | hx
        · exact hst x hx
        · rw [List.mem_singleton.mp hx]; exact hP inst

/-- C10. With a label prefix that is not empty, every group of the final `ecsInfoList` has
`Labels["exporter"] = "node_exporter"`, whatever the tag keys of the instances are: a rewritten
key `labelPrefix_k` contains an underscore and so is never `exporter`. -/
theorem exporter_label_protected (compile : String → Option Regexp) (flags : ecsCmdFlags)
    (vpcMap : GoMap) (insts : List Instance) (final : RunState)
    (hne : flags.labelPrefix ≠ "")
    (hrun : processInstances compile flags vpcMap RunState.init insts = .ok final) :
    (∀ g ∈ final.ecsInfoList,
      g.Labels.lookup "exporter" = some "node_exporter" ∧
      GoMap.index g.Labels "exporter" = "node_exporter") ∧
    (∀ k, flags.labelPrefix ++ "_" ++ k ≠ "exporter") := by
  refine ⟨?_, fun k => ?_⟩
  · refine processInstances_labels_built hrun
      (fun m => m.lookup "exporter" = some "node_exporter" ∧
        GoMap.index m "exporter" = "node_exporter") ?_ (by simp [RunState.init])
    intro i
    have := buildLabels_lookup_exporter flags vpcMap i (Or.inl hne)
    exact ⟨this, by simp [GoMap.index, this]⟩
  · rw [← labelKey_of_ne hne]
    exact labelKey_ne_exporter hne k

/-- With the prefix `ecs` the tag `exporter=custom` of `tagged01` becomes `ecs_exporter`. -/
theorem exporter_label_protected_witness :
    ecsPrefixFlags.labelPrefix ≠ "" ∧
    processInstances literalCompile ecsPrefixFlags coreVpcMap RunState.init [tagged01] =
      .ok ⟨[⟨["tagged01.ali-netbase.com:9100"],
          ((((∅ : GoMap).insert "exporter" "node_exporter").insert "ecs_exporter" "custom").insert
            "ecs_vpc" "core")⟩],
        (∅ : GoMap).insert "tagged01" "i-tagged01", [tagged01]⟩ ∧
    (∀ k, ecsPrefixFlags.labelPrefix ++ "_" ++ k ≠ "exporter") :=
  ⟨by decide, by decide,
   (exporter_label_protected literalCompile ecsPrefixFlags coreVpcMap [tagged01] _
      (by decide) (by decide : processInstances literalCompile ecsPrefixFlags coreVpcMap
        RunState.init [tagged01] =
      .ok ⟨[⟨["tagged01.ali-netbase.com:9100"],
          ((((∅ : GoMap).insert "exporter" "node_exporter").insert "ecs_exporter" "custom").insert
            "ecs_vpc" "core")⟩],
        (∅ : GoMap).insert "tagged01" "i-tagged01", [tagged01]⟩)).2⟩


theorem recordVpcs_index_of_not_mem (st : VpcState) (vpcs : List Vpc) (id : String)
    (h : ∀ v ∈ vpcs, v.VpcId ≠ id) :
    (recordVpcs st vpcs).vpcMap.index id = st.vpcMap.index id := by
  induction vpcs generalizing st with
  | nil => rfl
  | cons v rest ih =>
    simp only [recordVpcs]
    rw [ih _ (fun w hw => h w (List.mem_cons_of_mem _ hw))]
    exact index_insert_of_ne _ _ (fun heq => h v (List.mem_cons_self _ _) heq.symm)

/-- An instance that passed the filter and whose name is free is grouped: the step returns
normally and its address is a target of a group that carries its label map. -/
theorem instanceStep_emits {compile : String → Option Regexp} {flags : ecsCmdFlags}
    (vpcMap : GoMap) {st : RunState} {inst : Instance}
    (hpass : scopeFilter compile flags inst = .ok true)
    (hfree : st.instanceList.index inst.InstanceName = "") :
    ∃ st', instanceStep compile flags vpcMap st inst = .ok st' ∧
      ∃ g ∈ st'.ecsInfoList, g.Labels = buildLabels flags vpcMap inst ∧
        targetOf inst.InstanceName ∈ g.Targets := by
  refine ⟨⟨groupInstance flags vpcMap inst st.ecsInfoList,
    st.instanceList.insert inst.InstanceName inst.InstanceId, st.allInstances ++ [inst]⟩, ?_, ?_⟩
  · simp only [instanceStep, hpass]
    rw [if_neg (not_not.mpr hfree)]
  · obtain ⟨g, hg, hL, hT⟩ := groupInstance_at_index flags vpcMap inst st.ecsInfoList
    exact ⟨g, List.getElem?_mem hg, hL, by rw [hT]; simp⟩

/-- C7. For every instance, every set of tags and every label prefix, the entry of the label
map under the network key (`vpc` without a prefix, `labelPrefix_vpc` with one) is the name that
the directory `vpcMap` holds for the `VpcId` of the instance, and the empty string when the
directory has no entry for it (in particular when `getVPCInfo` has recorded no network with that
identifier). An instance that reaches grouping is grouped without error whatever its `VpcId`:
its address becomes a target of a group with that label map. -/
theorem vpc_label (flags : ecsCmdFlags) (vpcMap : GoMap) (inst : Instance) :
    (flags.labelPrefix = "" →
      (buildLabels flags vpcMap inst).lookup "vpc" = some (vpcMap.index inst.VpcId)) ∧
    (flags.labelPrefix ≠ "" →
      (buildLabels flags vpcMap inst).lookup (flags.labelPrefix ++ "_vpc") =
        some (vpcMap.index inst.VpcId)) ∧
    (∀ name, vpcMap.lookup inst.VpcId = some name → vpcMap.index inst.VpcId = name) ∧
    (vpcMap.lookup inst.VpcId = none → vpcMap.index inst.VpcId = "") ∧
    (∀ vpcs : List Vpc, (∀ v ∈ vpcs, v.VpcId ≠ inst.VpcId) →
      GoMap.index (recordVpcs ⟨∅, []⟩ vpcs).vpcMap inst.VpcId = "") ∧
    (∀ (compile : String → Option Regexp) (st : RunState),
      scopeFilter compile flags inst = .ok true →
      st.instanceList.index inst.InstanceName = "" →
      ∃ st', instanceStep compile flags vpcMap st inst = .ok st' ∧
        ∃ g ∈ st'.ecsInfoList, g.Labels = buildLabels flags vpcMap inst ∧
          targetOf inst.InstanceName ∈ g.Targets) := by
  have hkey := buildLabels_lookup_vpc flags vpcMap inst
  refine ⟨fun hp => ?_, fun hp => ?_, fun name hn => ?_, fun hn => ?_, fun vpcs hv => ?_,
    fun compile st hpass hfree => instanceStep_emits vpcMap hpass hfree⟩
  · rw [hp, labelKey_empty] at hkey
    exact hkey
  · rw [labelKey_of_ne hp] at hkey
    have hk : flags.labelPrefix ++ "_vpc" = flags.labelPrefix ++ "_" ++ "vpc" := by
      apply String.ext
      simp [String.data_append]
    rw [hk]
    exact hkey
  · simp [GoMap.index, hn]
  · simp [GoMap.index, hn]
  · rw [recordVpcs_index_of_not_mem _ _ _ hv]
    exact index_empty _

/-- The network label of `lost01`, whose network is unknown, is the empty string, and `lost01` is
grouped all the same. -/
theorem vpc_label_witness :
    plainFlags.labelPrefix = "" ∧
    ecsPrefixFlags.labelPrefix ≠ "" ∧
    coreVpcMap.lookup lost01.VpcId = none ∧
    (∀ v ∈ [(⟨"vpc-1", "core"⟩ : Vpc)], v.VpcId ≠ lost01.VpcId) ∧
    scopeFilter literalCompile plainFlags lost01 = .ok true ∧
    GoMap.index RunState.init.instanceList lost01.InstanceName = "" ∧
    (buildLabels plainFlags coreVpcMap lost01).lookup "vpc" = some "" ∧
    (buildLabels ecsPrefixFlags coreVpcMap web01).lookup (ecsPrefixFlags.labelPrefix ++ "_vpc")
      = some "core" ∧
    GoMap.index (recordVpcs ⟨∅, []⟩ [⟨"vpc-1", "core"⟩]).vpcMap lost01.VpcId = "" ∧
    ∃ st', instanceStep literalCompile plainFlags coreVpcMap RunState.init lost01 = .ok st' ∧
      ∃ g ∈ st'.ecsInfoList, g.Labels = buildLabels plainFlags coreVpcMap lost01 ∧
        targetOf lost01.InstanceName ∈ g.Targets := by
  have h := vpc_label plainFlags coreVpcMap lost01
  have h' := vpc_label ecsPrefixFlags coreVpcMap web01
  refine ⟨rfl, by decide, by decide, by decide, by decide, by decide, ?_, ?_, ?_, ?_⟩
  · rw [h.1 rfl, h.2.2.2.1 (by decide)]
  · rw [h'.2.1 (by decide), h'.2.2.1 "core" (by decide)]
  · exact h.2.2.2.2.1 _ (by decide)
  · exact h.2.2.2.2.2 literalCompile RunState.init (by decide) (by decide)

/-! ## The content of the label map -/

/-- C6, as stated, fails. Without a prefix a tag named `exporter` replaces the fixed label, and
a tag named `vpc` is replaced by the network label, with or without a prefix (the tag keys of
`tagged01` are unique, and `tagged01` reaches grouping: its group carries the labels
`{exporter: custom, vpc: core}`). -/
theorem label_content_counterexample :
    (tagged01.Tags.map Tag.TagKey).Nodup ∧
    (buildLabels plainFlags coreVpcMap tagged01).lookup "exporter" = some "custom" ∧
    (buildLabels plainFlags coreVpcMap tagged01).lookup "vpc" = some "core" ∧
    (buildLabels ecsPrefixFlags coreVpcMap tagged01).lookup ("ecs" ++ "_" ++ "vpc") =
      some "core" ∧
    (⟨"exporter", "custom"⟩ : Tag) ∈ tagged01.Tags ∧ (⟨"vpc", "mine"⟩ : Tag) ∈ tagged01.Tags ∧
    processInstances literalCompile plainFlags coreVpcMap RunState.init [tagged01] =
      .ok ⟨[⟨["tagged01.ali-netbase.com:9100"],
          ((∅ : GoMap).insert "exporter" "custom").insert "vpc" "core"⟩],
        (∅ : GoMap).insert "tagged01" "i-tagged01", [tagged01]⟩ := by
  refine ⟨by decide, by decide, by decide, by decide, by decide, by decide, by decide⟩

/-- C6, amended. For every instance with unique tag keys and every label prefix, the label map
built for it holds `exporter = node_exporter` whenever the prefix is not empty or no tag is named
`exporter`, and for every tag `(k, v)` other than a tag named `vpc` it holds `v` under the key
`k` (no prefix) or `labelPrefix_k` (with a prefix). When the single instance `web01` with the
tag `env=prod` in the network `vpc-1` named `core` passes the filter and there is no prefix, the
output is one group with the labels `{exporter: node_exporter, env: prod, vpc: core}` and the
single target `web01.ali-netbase.com:9100`. -/
theorem label_content (flags : ecsCmdFlags) (vpcMap : GoMap) (inst : Instance)
    (hkeys : (inst.Tags.map Tag.TagKey).Nodup) :
    ((flags.labelPrefix ≠ "" ∨ ∀ tag ∈ inst.Tags, tag.TagKey ≠ "exporter") →
      (buildLabels flags vpcMap inst).lookup "exporter" = some "node_exporter") ∧
    (∀ tag ∈ inst.Tags, tag.TagKey ≠ "vpc" →
      (flags.labelPrefix = "" →
        (buildLabels flags vpcMap inst).lookup tag.TagKey = some tag.TagValue) ∧
      (flags.labelPrefix ≠ "" →
        (buildLabels flags vpcMap inst).lookup (flags.labelPrefix ++ "_" ++ tag.TagKey) =
          some tag.TagValue)) ∧
    (∀ (compile : String → Option Regexp) (id : String),
      flags.labelPrefix = "" → vpcMap.lookup "vpc-1" = some "core" →
      scopeFilter compile flags ⟨id, "web01", [⟨"env", "prod"⟩], "vpc-1"⟩ = .ok true →
      ∃ final, processInstances compile flags vpcMap RunState.init
          [⟨id, "web01", [⟨"env", "prod"⟩], "vpc-1"⟩] = .ok final ∧
        final.ecsInfoList = [⟨["web01.ali-netbase.com:9100"],
          ((((∅ : GoMap).insert "exporter" "node_exporter").insert "env" "prod").insert
            "vpc" "core")⟩]) := by
  refine ⟨buildLabels_lookup_exporter flags vpcMap inst, fun tag htag hvpc => ⟨?_, ?_⟩, ?_⟩
  · intro hp
    have := buildLabels_lookup_tag flags vpcMap inst hkeys tag htag hvpc
    rwa [hp, labelKey_empty] at this
  · intro hp
    have := buildLabels_lookup_tag flags vpcMap inst hkeys tag htag hvpc
    rwa [labelKey_of_ne hp] at this
  · intro compile id hp hvpc hpass
    have hidx : vpcMap.index "vpc-1" = "core" := by simp [GoMap.index, hvpc]
    refine ⟨⟨groupInstance flags vpcMap ⟨id, "web01", [⟨"env", "prod"⟩], "vpc-1"⟩ [],
      (∅ : GoMap).insert "web01" id, [⟨id, "web01", [⟨"env", "prod"⟩], "vpc-1"⟩]⟩, ?_, ?_⟩
    · simp only [processInstances, instanceStep, hpass]
      rw [if_neg (by simp [RunState.init, index_empty])]
      rfl
    · simp only [groupInstance, appendTarget, buildLabels, tagLabels, hp,
        labelKey_empty, hidx, List.nil_append]
      have ht : targetOf "web01" = "web01.ali-netbase.com:9100" := by decide
      rw [ht]

/-- The label map of `web01` and the output for `web01` alone. -/
theorem label_content_witness :
    (web01.Tags.map Tag.TagKey).Nodup ∧
    sampleFlags.labelPrefix = "" ∧ coreVpcMap.lookup "vpc-1" = some "core" ∧
    scopeFilter literalCompile sampleFlags ⟨"i-web01", "web01", [⟨"env", "prod"⟩], "vpc-1"⟩
      = .ok true ∧
    (∃ final, processInstances literalCompile sampleFlags coreVpcMap RunState.init
          [⟨"i-web01", "web01", [⟨"env", "prod"⟩], "vpc-1"⟩] = .ok final ∧
        final.ecsInfoList = [⟨["web01.ali-netbase.com:9100"],
          ((((∅ : GoMap).insert "exporter" "node_exporter").insert "env" "prod").insert
            "vpc" "core")⟩]) ∧
    (buildLabels sampleFlags coreVpcMap web01).lookup "exporter" = some "node_exporter" ∧
    (buildLabels sampleFlags coreVpcMap web01).lookup "env" = some "prod" := by
  have h := label_content sampleFlags coreVpcMap web01 (by decide)
  exact ⟨by decide, rfl, by decide, by decide,
    h.2.2 literalCompile "i-web01" rfl (by decide) (by decide),
    h.1 (Or.inr (by decide)),
    (h.2.1 ⟨"env", "prod"⟩ (by decide) (by decide)).1 rfl⟩


/-! ## Paging -/

theorem wrap64_of_range {x : Int} (h₁ : -(2 ^ 63) ≤ x) (h₂ : x < 2 ^ 63) : wrap64 x = x := by
  unfold wrap64; omega

theorem wrap64_sub_wrap64 (T q : Int) (h₁ : -(2 ^ 63) ≤ T - q) (h₂ : T - q < 2 ^ 63) :
    wrap64 (T - wrap64 q) = T - q := by
  unfold wrap64; omega

/-- The number `fetchCount T pageSize` is the first page `p` with `p * pageSize ≥ T`. -/
theorem fetchCount_spec (T ps : Int) (hT : 0 ≤ T) (hps : 1 ≤ ps) :
    1 ≤ fetchCount T ps ∧ T ≤ (fetchCount T ps : Int) * ps ∧
    ∀ p : Nat, 1 ≤ p → p < fetchCount T ps → (p : Int) * ps < T := by
  have hpos : 0 < ps := by omega
  have h1 : (T + ps - 1) / ps * ps ≤ T + ps - 1 := Int.ediv_mul_le _ (by omega)
  have h2 : T + ps - 1 < ((T + ps - 1) / ps + 1) * ps := Int.lt_ediv_add_one_mul_self _ hpos
  have hc0 : 0 ≤ (T + ps - 1) / ps := Int.ediv_nonneg (by omega) (by omega)
  have hN : (fetchCount T ps : Int) = max 1 ((T + ps - 1) / ps) := by
    unfold fetchCount
    rw [Int.toNat_of_nonneg]
    omega
  have hexp : ((T + ps - 1) / ps + 1) * ps = (T + ps - 1) / ps * ps + ps := by ring
  refine ⟨?_, ?_, ?_⟩
  · have : (1 : Int) ≤ fetchCount T ps := by rw [hN]; exact le_max_left _ _
    exact_mod_cast this
  · rw [hN]
    rcases le_total 1 ((T + ps - 1) / ps) with h | h
    · rw [max_eq_right h]
      omega
    · rw [max_eq_left h]
      have hz : (T + ps - 1) / ps * ps ≤ 1 * ps := Int.mul_le_mul_of_nonneg_right h (by omega)
      omega
  · intro p hp1 hpN
    have hpN' : (p : Int) < fetchCount T ps := by exact_mod_cast hpN
    rw [hN] at hpN'
    have hp1' : (1 : Int) ≤ p := by exact_mod_cast hp1
    have hlt : (p : Int) < (T + ps - 1) / ps := by
      rcases le_total 1 ((T + ps - 1) / ps) with h | h
      · rwa [max_eq_right h] at hpN'
      · rw [max_eq_left h] at hpN'; omega
    have hle : (p : Int) * ps ≤ ((T + ps - 1) / ps - 1) * ps :=
      Int.mul_le_mul_of_nonneg_right (by omega) (by omega)
    have : ((T + ps - 1) / ps - 1) * ps = (T + ps - 1) / ps * ps - ps := by ring
    omega

/-- A total of 25 with pages of 10 takes three requests, a total of 0 takes one. -/
theorem fetchCount_examples :
    fetchCount 25 10 = 3 ∧ ∀ ps : Int, 1 ≤ ps → fetchCount 0 ps = 1 := by
  refine ⟨by decide, fun ps hps => ?_⟩
  have h : (0 + ps - 1) / ps = 0 := Int.ediv_eq_zero_of_lt (by omega) (by omega)
  unfold fetchCount
  rw [h]
  rfl

theorem pageLoop_done {ρ σ : Type} (fetch : Int → Except Fault (List ρ × Int))
    (body : σ → List ρ → Except Fault σ) (ps : Int) (fuel : Nat) (remaining p : Int) (st : σ)
    (log : List Int) (h : ¬ remaining > 0) :
    pageLoop fetch body ps fuel remaining p st log = some (log, .ok st) := by
  cases fuel <;> simp [pageLoop, h]

theorem pageItems_of_ok {ρ : Type} {fetch : Int → Except Fault (List ρ × Int)} {p : Int}
    {items : List ρ} {T : Int} (h : fetch p = .ok (items, T)) : pageItems fetch p = items := by
  simp [pageItems, h]

/-- The loop from page `p` on, when `k` more pages follow until the first page `N` with
`N * pageSize ≥ T`. -/
theorem pageLoop_from {ρ σ : Type} (fetch : Int → Except Fault (List ρ × Int))
    (body : σ → List ρ → Except Fault σ) (ps T : Int)
    (hps : 1 ≤ ps) (hpsU : ps < 2 ^ 63) (hT : 0 ≤ T) (hTU : T < 2 ^ 63)
    (hfetch : ∀ p, ∃ items, fetch p = .ok (items, T))
    (N : Nat) (hstop : T ≤ (N : Int) * ps)
    (hfirst : ∀ p : Nat, 1 ≤ p → p < N → (p : Int) * ps < T) :
    ∀ (k p : Nat), p + k = N → 1 ≤ p → ∀ (fuel : Nat) (remaining : Int) (st st' : σ)
      (log : List Int), remaining > 0 → k + 1 ≤ fuel →
      runPages fetch body ((List.range' p (k + 1)).map (fun i : Nat => (i : Int))) st = .ok st' →
      pageLoop fetch body ps fuel remaining p st log =
        some (log ++ (List.range' p (k + 1)).map (fun i : Nat => (i : Int)), .ok st') := by
  intro k
  induction k with
  | zero =>
    intro p hpk hp1 fuel remaining st st' log hrem hfuel hrun
    obtain ⟨f, rfl⟩ : ∃ f, fuel = f + 1 := ⟨fuel - 1, by omega⟩
    obtain ⟨items, hitems⟩ := hfetch p
    simp only [List.range', List.map_cons, List.map_nil, runPages,
      pageItems_of_ok hitems] at hrun ⊢
    cases hb : body st items with
    | error e => simp [hb] at hrun
    | ok st₁ =>
      simp only [hb, runPages] at hrun
      cases hrun
      simp only [pageLoop, hrem, if_true, hitems, hb]
      apply pageLoop_done
      have hpN : (p : Int) = N := by exact_mod_cast (by omega : p = N)
      have hlow : T - (p : Int) * ps ≥ -ps := by
        rcases Nat.eq_or_lt_of_le hp1 with h1 | h1
        · have : (p : Int) = 1 := by exact_mod_cast h1.symm
          rw [this]; omega
        · have hprev := hfirst (p - 1) (by omega) (by omega)
          have hc : ((p - 1 : Nat) : Int) = (p : Int) - 1 := by omega
          rw [hc, Int.sub_mul] at hprev
          omega
      have hq : 0 ≤ (p : Int) * ps := Int.mul_nonneg (by omega) (by omega)
      rw [wrap64_sub_wrap64 _ _ (by omega) (by omega), hpN]
      omega
  | succ k ih =>
    intro p hpk hp1 fuel remaining st st' log hrem hfuel hrun
    obtain ⟨f, rfl⟩ : ∃ f, fuel = f + 1 := ⟨fuel - 1, by omega⟩
    obtain ⟨items, hitems⟩ := hfetch p
    rw [List.range'_succ, List.map_cons] at hrun ⊢
    simp only [runPages, pageItems_of_ok hitems] at hrun
    cases hb : body st items with
    | error e => simp [hb] at hrun
    | ok st₁ =>
      simp only [hb] at hrun
      simp only [pageLoop, hrem, if_true, hitems, hb]
      have hlt := hfirst p hp1 (by omega)
      have hq : 0 ≤ (p : Int) * ps := Int.mul_nonneg (by omega) (by omega)
      have hple : (p : Int) * 1 ≤ (p : Int) * ps := Int.mul_le_mul_of_nonneg_left hps (by omega)
      have hnext : wrap64 ((p : Int) + 1) = ((p + 1 : Nat) : Int) := by
        rw [wrap64_of_range (by omega) (by omega)]
        omega
      rw [wrap64_sub_wrap64 _ _ (by omega) (by omega), hnext]
      have := ih (p + 1) (by omega) (by omega) f (T - (p : Int) * ps) st₁ st'
        (log ++ [(p : Int)]) (by omega) (by omega) hrun
      rw [this, List.append_assoc]
      rfl

/-- The paging loop, started as `Run` and `getVPCInfo` start it, against a source that reports
the total `T` on every page and never fails: when the loop body does not fail on the pages
`1, ..., fetchCount T pageSize`, the loop returns after exactly these requests, in this
order, whatever fuel of at least that amount it is given. -/
theorem pageLoop_fetches {ρ σ : Type} (fetch : Int → Except Fault (List ρ × Int))
    (body : σ → List ρ → Except Fault σ) (ps T : Int)
    (hps : 1 ≤ ps) (hpsU : ps < 2 ^ 63) (hT : 0 ≤ T) (hTU : T < 2 ^ 63)
    (hfetch : ∀ p, ∃ items, fetch p = .ok (items, T))
    (fuel : Nat) (hfuel : fetchCount T ps ≤ fuel) (st st' : σ)
    (hrun : runPages fetch body (pageNumbers (fetchCount T ps)) st = .ok st') :
    pageLoop fetch body ps fuel 1 1 st [] = some (pageNumbers (fetchCount T ps), .ok st') := by
  obtain ⟨hN1, hstop, hfirst⟩ := fetchCount_spec T ps hT hps
  obtain ⟨k, hk⟩ : ∃ k, fetchCount T ps = k + 1 := ⟨fetchCount T ps - 1, by omega⟩
  have := pageLoop_from fetch body ps T hps hpsU hT hTU hfetch (fetchCount T ps) hstop hfirst
    k 1 (by omega) (Nat.le_refl 1) fuel 1 st st' [] (by decide) (by omega)
    (by rw [pageNumbers, hk] at hrun; exact hrun)
  rw [pageNumbers, hk]
  simpa using this

theorem processInstances_append_eq (compile : String → Option Regexp) (flags : ecsCmdFlags)
    (vpcMap : GoMap) (xs ys : List Instance) (st : RunState) :
    processInstances compile flags vpcMap st (xs ++ ys) =
      match processInstances compile flags vpcMap st xs with
      | .error e => .error e
      | .ok mid => processInstances compile flags vpcMap mid ys := by
  induction xs generalizing st with
  | nil => simp [processInstances]
  | cons x rest ih =>
    simp only [List.cons_append, processInstances]
    cases hs : instanceStep compile flags vpcMap st x with
    | error e => rfl
    | ok st₁ => exact ih st₁

/-- Page after page is the same as the whole inventory in fetch order. -/
theorem runPages_processInstances {fetch : Int → Except Fault (List Instance × Int)}
    (compile : String → Option Regexp) (flags : ecsCmdFlags) (vpcMap : GoMap)
    (pages : List Int) (st : RunState) :
    runPages fetch (processInstances compile flags vpcMap) pages st =
      processInstances compile flags vpcMap st (pages.flatMap (pageItems fetch)) := by
  induction pages generalizing st with
  | nil => simp [runPages, processInstances]
  | cons p rest ih =>
    rw [List.flatMap_cons, processInstances_append_eq]
    simp only [runPages]
    cases hs : processInstances compile flags vpcMap st (pageItems fetch p) with
    | error e => rfl
    | ok st₁ => exact ih st₁

theorem recordVpcs_append (st : VpcState) (xs ys : List Vpc) :
    recordVpcs st (xs ++ ys) = recordVpcs (recordVpcs st xs) ys := by
  induction xs generalizing st with
  | nil => rfl
  | cons x rest ih =>
    rw [List.cons_append]
    simp only [recordVpcs]
    exact ih _

theorem runPages_recordVpcs {fetch : Int → Except Fault (List Vpc × Int)}
    (pages : List Int) (st : VpcState) :
    runPages fetch (fun st vpcs => .ok (recordVpcs st vpcs)) pages st =
      .ok (recordVpcs st (pages.flatMap (pageItems fetch))) := by
  induction pages generalizing st with
  | nil => simp [runPages, recordVpcs]
  | cons p rest ih =>
    rw [List.flatMap_cons, recordVpcs_append]
    simp only [runPages]
    exact ih _

theorem recordVpcs_allVpcs (st : VpcState) (vpcs : List Vpc) :
    (recordVpcs st vpcs).allVpcs = st.allVpcs ++ vpcs := by
  induction vpcs generalizing st with
  | nil => simp [recordVpcs]
  | cons v rest ih => simp [recordVpcs, ih]


/-- The network loop: `getVPCInfo` always returns after `fetchCount T pageSize` requests, for
the pages `1, 2, ...` in order, with the networks recorded in fetch order. -/
theorem getVPCInfo_fetches (vpcClient : DescribeVpcsRequest → Except Fault (List Vpc × Int))
    (flags : ecsCmdFlags) (T : Int)
    (hps : 1 ≤ flags.pageSize) (hpsU : flags.pageSize < 2 ^ 63) (hT : 0 ≤ T) (hTU : T < 2 ^ 63)
    (hsrc : ∀ req, ∃ vpcs, vpcClient req = .ok (vpcs, T))
    (fuel : Nat) (hfuel : fetchCount T flags.pageSize ≤ fuel) :
    getVPCInfo vpcClient flags fuel =
      some (pageNumbers (fetchCount T flags.pageSize),
        .ok (recordVpcs ⟨∅, []⟩ ((pageNumbers (fetchCount T flags.pageSize)).flatMap
          (pageItems (fun pageNumber => vpcClient ⟨flags.pageSize, pageNumber⟩))))) := by
  unfold getVPCInfo
  exact pageLoop_fetches _ _ flags.pageSize T hps hpsU hT hTU (fun p => hsrc _) fuel hfuel _ _
    (runPages_recordVpcs _ _)

/-- The instance loop: when processing the inventory (the pages `1, ..., fetchCount T pageSize`
in fetch order) does not abort, the loop of `Run` returns after exactly these requests, with
the state that processing the inventory gives. -/
theorem RunLoop_fetches
    (ecsClient : DescribeInstancesRequest → Except Fault (List Instance × Int))
    (compile : String → Option Regexp) (flags : ecsCmdFlags) (vpcMap : GoMap)
    (tags : List (String × String)) (T : Int)
    (hps : 1 ≤ flags.pageSize) (hpsU : flags.pageSize < 2 ^ 63) (hT : 0 ≤ T) (hTU : T < 2 ^ 63)
    (hsrc : ∀ req, ∃ insts, ecsClient req = .ok (insts, T))
    (fuel : Nat) (hfuel : fetchCount T flags.pageSize ≤ fuel) (final : RunState)
    (hrun : processInstances compile flags vpcMap RunState.init
      ((pageNumbers (fetchCount T flags.pageSize)).flatMap
        (pageItems (fun pageNumber =>
          ecsClient ⟨tags, flags.instanceName, flags.pageSize, pageNumber⟩))) = .ok final) :
    RunLoop ecsClient compile flags vpcMap tags fuel =
      some (pageNumbers (fetchCount T flags.pageSize), .ok final) := by
  unfold RunLoop
  exact pageLoop_fetches _ _ flags.pageSize T hps hpsU hT hTU (fun p => hsrc _) fuel hfuel _ _
    (by rw [runPages_processInstances]; exact hrun)

/-- When every exclude pattern compiles, processing never aborts. -/
theorem processInstances_of_compile (compile : String → Option Regexp) (flags : ecsCmdFlags)
    (vpcMap : GoMap) (hc : ∀ p ∈ flags.noTagKey ++ flags.noTagValue, (compile p).isSome = true)
    (insts : List Instance) (st : RunState) :
    ∃ st', processInstances compile flags vpcMap st insts = .ok st' := by
  have hfilter : ∀ inst, ∃ b, scopeFilter compile flags inst = .ok b := by
    intro inst
    obtain ⟨bk, hbk, -⟩ := excludeLoop_of_compile compile Tag.TagKey inst.Tags flags.noTagKey
      (fun p hp => hc p (List.mem_append_left _ hp))
    obtain ⟨bv, hbv, -⟩ := excludeLoop_of_compile compile Tag.TagValue inst.Tags
      flags.noTagValue (fun p hp => hc p (List.mem_append_right _ hp))
    unfold scopeFilter
    by_cases hn : nameGate compile flags inst = true
    · rw [if_pos hn, hbk]
      cases bk with
      | false => exact ⟨false, rfl⟩
      | true => exact ⟨bv, hbv⟩
    · rw [if_neg hn]
      exact ⟨false, rfl⟩
  induction insts generalizing st with
  | nil => exact ⟨st, rfl⟩
  | cons inst rest ih =>
    obtain ⟨b, hb⟩ := hfilter inst
    have hstep : ∃ st₁, instanceStep compile flags vpcMap st inst = .ok st₁ := by
      unfold instanceStep
      rw [hb]
      cases b with
      | false => exact ⟨_, rfl⟩
      | true =>
        by_cases hd : st.instanceList.index inst.InstanceName ≠ ""
        · simp only [if_pos hd]; exact ⟨_, rfl⟩
        · simp only [if_neg hd]; exact ⟨_, rfl⟩
    obtain ⟨st₁, hst₁⟩ := hstep
    obtain ⟨st', hst'⟩ := ih st₁
    exact ⟨st', by simp only [processInstances, hst₁, hst']⟩

/-- A pattern that does not compile never passes the name gate by itself. -/
theorem nameLoop_of_not_compile (compile : String → Option Regexp) (name regRule : String)
    (rest : List String) (b : Bool) (h : compile regRule = none) :
    MatchString compile regRule name = false ∧
    nameLoop compile name (regRule :: rest) b = nameLoop compile name rest b := by
  have hm : MatchString compile regRule name = false := by simp [MatchString, h]
  exact ⟨hm, by simp [nameLoop, hm]⟩

/-- An exclude pattern that does not compile aborts the filter of every instance that has a
tag. -/
theorem excludeLoop_of_not_compile (compile : String → Option Regexp) (proj : Tag → String)
    (tag : Tag) (tags : List Tag) (regRule : String) (rest : List String)
    (h : compile regRule = none) :
    excludeLoop compile proj (tag :: tags) (regRule :: rest) = .error Fault.nilDereference := by
  simp [excludeLoop, tagLoop, h]

/-- C5, at the failing input. The pattern `(` is rejected by the compiler. As a `noTagKey` or as
a `noTagValue` pattern it does not leave the output as it is without the pattern: processing
the tagged instance `web01` aborts with a nil dereference, and so does the whole command, while
without the pattern the instance becomes a target. As a `regName` pattern `(` matches nothing
and processing completes. -/
theorem bad_exclude_pattern_aborts :
    literalCompile "(" = none ∧
    processInstances literalCompile badKeyFlags coreVpcMap RunState.init [web01] =
      .error Fault.nilDereference ∧
    processInstances literalCompile badValueFlags coreVpcMap RunState.init [web01] =
      .error Fault.nilDereference ∧
    processInstances literalCompile plainFlags coreVpcMap RunState.init [web01] =
      .ok web01State ∧
    Run sampleVpcClient sampleEcsClient literalCompile badKeyFlags 5 =
      some (.error Fault.nilDereference) ∧
    processInstances literalCompile { plainFlags with regName := ["("] } coreVpcMap
      RunState.init [web01] = .ok ⟨[], ∅, [web01]⟩ := by
  refine ⟨?_, by decide, by decide, by decide, by decide, by decide⟩
  unfold literalCompile
  rw [if_neg (by decide)]

/-- C4, at the failing input. The source reports the total 25 on every page and never fails,
and the page size is 10, so that three requests are due; with the exclude pattern `(`, which
does not compile, the instance loop of `Run` stops within the first page, after one request,
whatever the fuel. Without the pattern the same loop makes the three requests. -/
theorem instance_loop_stops_at_first_page :
    (∀ req, ∃ insts, sampleEcsClient req = .ok (insts, 25)) ∧
    fetchCount 25 badKeyFlags.pageSize = 3 ∧
    (∀ fuel, RunLoop sampleEcsClient literalCompile badKeyFlags coreVpcMap [] (fuel + 1) =
      some ([1], .error Fault.nilDereference)) ∧
    (∃ final, RunLoop sampleEcsClient literalCompile plainFlags coreVpcMap [] 3 =
      some ([1, 2, 3], .ok final)) := by
  refine ⟨fun req => ⟨_, rfl⟩, by decide, fun fuel => ?_, ?_⟩
  · have hbody : processInstances literalCompile badKeyFlags coreVpcMap RunState.init
        (pageItems (fun pageNumber => sampleEcsClient
          ⟨[], badKeyFlags.instanceName, badKeyFlags.pageSize, pageNumber⟩) 1) =
        .error Fault.nilDereference := by decide
    simp only [pageItems, sampleEcsClient] at hbody
    simp only [RunLoop, pageLoop, sampleEcsClient, hbody]
    simp
  · obtain ⟨final, hfinal⟩ := processInstances_of_compile literalCompile plainFlags coreVpcMap
      (by decide) ((pageNumbers (fetchCount 25 plainFlags.pageSize)).flatMap
        (pageItems (fun pageNumber => sampleEcsClient
          ⟨[], plainFlags.instanceName, plainFlags.pageSize, pageNumber⟩))) RunState.init
    refine ⟨final, ?_⟩
    have := RunLoop_fetches sampleEcsClient literalCompile plainFlags coreVpcMap [] 25
      (by decide) (by decide) (by decide) (by decide) (fun req => ⟨_, rfl⟩) 3 (by decide)
      final hfinal
    rw [this]
    rfl


/-! ## Grouping and the empty identifier -/

/-- Where no identifier is the empty string, some group of the final list holds the addresses
of two grouped instances exactly when their label maps are equal. -/
theorem grouping_by_labels_of_identifiers (compile : String → Option Regexp)
    (flags : ecsCmdFlags) (vpcMap : GoMap) (pre mid post : List Instance) (i₁ i₂ : Instance)
    (s₁ s₂ final : RunState)
    (hid : ∀ i ∈ pre ++ (i₁ :: mid) ++ (i₂ :: post), i.InstanceId ≠ "")
    (hpre : processInstances compile flags vpcMap RunState.init pre = .ok s₁)
    (hpass₁ : scopeFilter compile flags i₁ = .ok true)
    (hfree₁ : s₁.instanceList.index i₁.InstanceName = "")
    (hmid : processInstances compile flags vpcMap s₁ (i₁ :: mid) = .ok s₂)
    (hpass₂ : scopeFilter compile flags i₂ = .ok true)
    (hfree₂ : s₂.instanceList.index i₂.InstanceName = "")
    (hpost : processInstances compile flags vpcMap s₂ (i₂ :: post) = .ok final) :
    (∃ g ∈ final.ecsInfoList,
        targetOf i₁.InstanceName ∈ g.Targets ∧ targetOf i₂.InstanceName ∈ g.Targets) ↔
      buildLabels flags vpcMap i₁ = buildLabels flags vpcMap i₂ := by
  have hall : processInstances compile flags vpcMap RunState.init
      (pre ++ (i₁ :: mid) ++ (i₂ :: post)) = .ok final :=
    (processInstances_append _ _ _ _).mpr
      ⟨s₂, (processInstances_append _ _ _ _).mpr ⟨s₁, hpre, hmid⟩, hpost⟩
  have hN := (namesInv_run (namesInv_init compile flags) hall hid).2.2
  obtain ⟨g₁, g₂, -, -, -, -, -, -, -, -, -, h⟩ :=
    grouping_by_labels compile flags vpcMap pre mid post i₁ i₂ s₁ s₂ final
      hpre hpass₁ hfree₁ hmid hpass₂ hfree₂ hpost
  exact h hN

/-- C3, at the failing input. The instances `db01` (identifier the empty string, no tag) and
`db01Test` (same name, tag `env=test`) both pass the filter and both reach grouping, because the
test of line 183 takes the name `db01` for unregistered when `db01Test` comes. Their label maps
differ and they get a group each, but both groups hold the one address
`db01.ali-netbase.com:9100`: the addresses of the two instances are in the same group although
the label maps are not equal. -/
theorem same_address_in_two_groups :
    scopeFilter literalCompile plainFlags db01 = .ok true ∧
    GoMap.index RunState.init.instanceList db01.InstanceName = "" ∧
    processInstances literalCompile plainFlags ∅ RunState.init [db01] =
      .ok ⟨[⟨["db01.ali-netbase.com:9100"], db01Labels⟩], (∅ : GoMap).insert "db01" "", [db01]⟩ ∧
    scopeFilter literalCompile plainFlags db01Test = .ok true ∧
    GoMap.index ((∅ : GoMap).insert "db01" "") db01Test.InstanceName = "" ∧
    processInstances literalCompile plainFlags ∅ RunState.init [db01, db01Test] =
      .ok ⟨[⟨["db01.ali-netbase.com:9100"], db01Labels⟩,
          ⟨["db01.ali-netbase.com:9100"], db01TestLabels⟩],
        ((∅ : GoMap).insert "db01" "").insert "db01" "i-db01", [db01, db01Test]⟩ ∧
    buildLabels plainFlags ∅ db01 = db01Labels ∧
    buildLabels plainFlags ∅ db01Test = db01TestLabels ∧
    db01Labels ≠ db01TestLabels ∧
    targetOf db01.InstanceName = "db01.ali-netbase.com:9100" ∧
    targetOf db01Test.InstanceName = "db01.ali-netbase.com:9100" ∧
    (∃ g ∈ [(⟨["db01.ali-netbase.com:9100"], db01Labels⟩ : ecsInfo),
          ⟨["db01.ali-netbase.com:9100"], db01TestLabels⟩],
      targetOf db01.InstanceName ∈ g.Targets ∧ targetOf db01Test.InstanceName ∈ g.Targets) := by
  refine ⟨by decide, by decide, by decide, by decide, by decide, by decide, by decide,
    by decide, by decide, by decide, by decide, ?_⟩
  exact ⟨⟨["db01.ali-netbase.com:9100"], db01Labels⟩, by simp, by decide, by decide⟩


end AliSd
